import Mathlib

/-!
Verification development for the fitness-challenge-api core:
the badge rule engine (`badge.model.ts`, `badge.service.ts`) and the
challenge participation state machine (`challenge.service.ts`,
`challenge.model.ts`), together with the invitation workflow
(`invitation.model.ts`) and badge creation validation
(`badge.routes.ts`, `badge.controller.ts`).

JavaScript dynamic values are embedded as the inductive type `JsVal`;
JS numbers are modelled as `Option ℚ` under coercion, where `none`
stands for NaN (every comparison against NaN is false).  Mongo
documents are Lean structures, the database is an explicit `DB` state,
and each service operation is a function `DB → … → DB × Option Err`
returning the post-state together with the error, if any, that the
operation throws (`AppError`s are the `Err` constructors).  Fields of
the documents that no operation modelled here reads or writes
(descriptions, icons, images, …) are omitted.
-/

/-- A JavaScript runtime value, as used by the badge rule evaluator.
Object ids are modelled as numbers.  JSON cannot carry NaN, so no NaN
constructor is needed: NaN only arises from numeric coercion and is
represented there by `Option.none`. -/
inductive JsVal where
  | num (q : ℚ)
  | str (s : String)
  | bool (b : Bool)
  | null
  | undefined
  | arr (xs : List JsVal)
  | obj (fields : List (String × JsVal))

/-- Returns `true` iff the value is `undefined`. -/
def JsVal.isUndef : JsVal → Bool
  | .undefined => true
  | _ => false

/-- Returns `true` iff the value is `null` or `undefined` (the values rejected by a
mongoose `required` validator on a Mixed path). -/
def JsVal.isNullish : JsVal → Bool
  | .undefined => true
  | .null => true
  | _ => false

/-- Value of a non-empty all-digit character list, most significant first. -/
def decDigitsVal (cs : List Char) : ℕ :=
  cs.foldl (fun a c => 10 * a + (c.toNat - 48)) 0

/-- Returns `true` iff the list is non-empty and all decimal digits. -/
def allDigits (cs : List Char) : Bool :=
  !cs.isEmpty && cs.all (·.isDigit)

/-- Split of a character list at `sep` (JS `string.split(sep)`);
structural recursion so that proofs can evaluate it, unlike the
well-founded `String.splitOn`. -/
def splitList (sep : Char) : List Char → List (List Char)
  | [] => [[]]
  | c :: rest =>
      match splitList sep rest with
      | [] => [[c]]
      | h :: t => if c = sep then [] :: h :: t else (c :: h) :: t

/-- Whitespace trim of a character list (JS `string.trim()` and the
mongoose `trim` option); structural, unlike `String.trim`. -/
def jsTrimList (cs : List Char) : List Char :=
  ((cs.dropWhile Char.isWhitespace).reverse.dropWhile Char.isWhitespace).reverse

/-- See `jsTrimList`. -/
def jsTrim (s : String) : String := String.mk (jsTrimList s.data)

/-- JS `Number(string)` on finite decimal literals: optional sign, integer
part, optional fractional part; the trimmed empty string is 0; anything else
(hex, exponents, `Infinity`, garbage) is NaN (`none`).  The repository never
feeds other string shapes to numeric coercion. -/
def jsStringToNumber (s : String) : Option ℚ :=
  let t := jsTrimList s.data
  if t.isEmpty then some 0
  else
    let (sign, body) : ℚ × List Char :=
      match t with
      | '-' :: r => (-1, r)
      | '+' :: r => (1, r)
      | r => (1, r)
    match splitList '.' body with
    | [a] =>
        if allDigits a then some (sign * decDigitsVal a) else none
    | [a, b] =>
        if (allDigits a || a.isEmpty) && (allDigits b || b.isEmpty)
            && !(a.isEmpty && b.isEmpty) then
          some (sign * ((decDigitsVal a : ℚ) + (decDigitsVal b : ℚ) / (10 : ℚ) ^ b.length))
        else none
    | _ => none

/-- JS `Number(v)` (ToNumber); `none` is NaN.  Arrays coerce through their
string conversion: `[] → 0`, a single element coerces like that element
(with `null`/`undefined` elements printing as the empty string, hence 0),
several elements print with commas, hence NaN; objects print as
`[object Object]`, hence NaN. -/
def toNumber : JsVal → Option ℚ
  | .num q => some q
  | .str s => jsStringToNumber s
  | .bool b => some (if b then 1 else 0)
  | .null => some 0
  | .undefined => none
  | .arr [] => some 0
  | .arr [v] =>
      match v with
      | .num q => some q
      | .str s => jsStringToNumber s
      | .null => some 0
      | .undefined => some 0
      | .arr xs => toNumber (.arr xs)
      | _ => none
  | .arr (_ :: _ :: _) => none
  | .obj _ => none

/-- JS strict equality `===` on the values occurring here.  Arrays and
objects compare by reference; a rule constant and a snapshot value are
never the same reference, so those cases are `false`. -/
def jsStrictEq : JsVal → JsVal → Bool
  | .num a, .num b => a = b
  | .str a, .str b => a = b
  | .bool a, .bool b => a = b
  | .null, .null => true
  | .undefined, .undefined => true
  | _, _ => false

/-- One badge rule (`badge.model.ts`, `IBadgeRule`).  `value2 = none`
models an absent `value2`. -/
structure BadgeRule where
  type : String
  field : String
  operator : String
  value : JsVal
  value2 : Option JsVal

/-- Comparisons on coerced numbers: any comparison against NaN is false. -/
def jsNumGt (a b : Option ℚ) : Bool :=
  match a, b with
  | some x, some y => x > y
  | _, _ => false

/-- See `jsNumGt`. -/
def jsNumLt (a b : Option ℚ) : Bool :=
  match a, b with
  | some x, some y => x < y
  | _, _ => false

/-- See `jsNumGt`. -/
def jsNumGe (a b : Option ℚ) : Bool :=
  match a, b with
  | some x, some y => x ≥ y
  | _, _ => false

/-- See `jsNumGt`. -/
def jsNumLe (a b : Option ℚ) : Bool :=
  match a, b with
  | some x, some y => x ≤ y
  | _, _ => false

/-- Model of `badgeSchema.methods.evaluateRule` (badge.model.ts:162-177): the
switch over the rule operator.  `rule.value2` being absent coerces as
`undefined` (NaN). -/
def evaluateRule (fieldValue : JsVal) (rule : BadgeRule) : Bool :=
  match rule.operator with
  | "equals" => jsStrictEq fieldValue rule.value
  | "greater_than" => jsNumGt (toNumber fieldValue) (toNumber rule.value)
  | "less_than" => jsNumLt (toNumber fieldValue) (toNumber rule.value)
  | "contains" =>
      match fieldValue with
      | .arr xs => xs.any (fun x => jsStrictEq x rule.value)
      | _ => false
  | "between" =>
      jsNumGe (toNumber fieldValue) (toNumber rule.value) &&
      jsNumLe (toNumber fieldValue) (toNumber (rule.value2.getD .undefined))
  | _ => false

/-- Lookup of an own property of an object literal. -/
def jsObjGet? (fields : List (String × JsVal)) (k : String) : Option JsVal :=
  (fields.find? (fun f => f.1 = k)).map (·.2)

/-- The canonical decimal numeral an array index key must be (`"7"` is
an own property of an 8-element array, `"07"` is not). -/
def canonicalNat? (cs : List Char) : Option ℕ :=
  match cs with
  | [] => none
  | ['0'] => some 0
  | c :: _ => if allDigits cs && c ≠ '0' then some (decDigitsVal cs) else none

/-- Step of the `badgeSchema.methods.getFieldValue` walk: one key.
A key is `in` an object iff it is an own property; it is `in` an array
iff it is a canonical index below the length, or `"length"`; every
other value (primitives, null) stops the walk with `undefined`. -/
def getFieldValueAux : JsVal → List String → JsVal
  | v, [] => v
  | v, k :: ks =>
      match v with
      | .obj fs =>
          match jsObjGet? fs k with
          | some v' => getFieldValueAux v' ks
          | none => .undefined
      | .arr xs =>
          if k = "length" then getFieldValueAux (.num xs.length) ks
          else
            match canonicalNat? k.data with
            | some i =>
                if i < xs.length then getFieldValueAux (xs.getD i .undefined) ks
                else .undefined
            | none => .undefined
      | _ => .undefined

/-- Model of `badgeSchema.methods.getFieldValue` (badge.model.ts:147-160):
dot-path resolution over the snapshot (JS `path.split('.')`). -/
def getFieldValue (o : JsVal) (path : String) : JsVal :=
  getFieldValueAux o ((splitList '.' path.data).map String.mk)

/-- The persisted stat counters of a user (`user.model.ts`, `stats`). -/
structure UserStats where
  totalChallenges : ℤ
  completedChallenges : ℤ
  totalCaloriesBurned : ℤ
  totalWorkoutMinutes : ℤ
  score : ℤ
deriving DecidableEq, Repr

/-- A user document (`user.model.ts`), restricted to the fields the core
reads or writes. -/
structure UserDoc where
  id : ℕ
  username : String
  badges : List ℕ
  friends : List ℕ
  stats : UserStats
deriving DecidableEq, Repr

/-- A badge document (`badge.model.ts`). -/
structure BadgeDoc where
  id : ℕ
  name : String
  rules : List BadgeRule
  points : ℤ
  isActive : Bool
  isAutomatic : Bool
  earnedCount : ℤ

/-- Model of `badgeSchema.methods.checkUserEligibility` (badge.model.ts:135-145):
every rule must pass against the snapshot; the first failing rule
short-circuits to false. -/
def checkUserEligibility (b : BadgeDoc) (userData : JsVal) : Bool :=
  b.rules.all (fun rule => evaluateRule (getFieldValue userData rule.field) rule)

/-- A participant record embedded in a challenge (`challenge.model.ts`). -/
structure Participant where
  user : ℕ
  joinedAt : ℕ
  progress : ℚ
  completedAt : Option ℕ
deriving DecidableEq, Repr

/-- A challenge document (`challenge.model.ts`), restricted to the fields
the participation state machine reads or writes; `rewardPoints` is
`rewards.points`. -/
structure ChallengeDoc where
  id : ℕ
  isActive : Bool
  startDate : Option ℕ
  endDate : Option ℕ
  maxParticipants : Option ℕ
  rewardPoints : ℤ
  participants : List Participant
deriving DecidableEq, Repr

/-- Model of `challengeSchema.methods.hasParticipant` (challenge.model.ts:261-263). -/
def ChallengeDoc.hasParticipant (c : ChallengeDoc) (userId : ℕ) : Bool :=
  c.participants.any (fun p => p.user = userId)

/-- Model of `challengeSchema.methods.isFull` (challenge.model.ts:257-259):
`this.maxParticipants ? this.participants.length >= this.maxParticipants
: false` — an unset `maxParticipants` is falsy, and so is `0`. -/
def ChallengeDoc.isFull (c : ChallengeDoc) : Bool :=
  match c.maxParticipants with
  | none => false
  | some m => if m = 0 then false else c.participants.length ≥ m

/-- A training document (`training.model.ts`), restricted to what the
snapshot builder reads. -/
structure TrainingDoc where
  user : ℕ
  totalDuration : ℤ
deriving DecidableEq, Repr

/-- An invitation document (`invitation.model.ts`). -/
structure InvitationDoc where
  id : ℕ
  challenge : ℕ
  sender : ℕ
  recipient : ℕ
  status : String
deriving DecidableEq, Repr

/-- The document store. -/
structure DB where
  users : List UserDoc
  challenges : List ChallengeDoc
  badges : List BadgeDoc
  trainings : List TrainingDoc
  invitations : List InvitationDoc

/-- The distinct `AppError`s thrown by the modelled operations, plus
`envFailure` for an awaited call rejected by the environment (I/O
failure) rather than by an explicit `throw` in the code. -/
inductive Err where
  | challengeNotFound
  | challengeInactive
  | alreadyParticipating
  | challengeFull
  | challengeNotStarted
  | challengeEnded
  | notParticipating
  | alreadyCompletedChallenge
  | userNotFound
  | invitationNotFound
  | mustParticipateToInvite
  | invitedUsersMissing
  | notYourFriend
  | invitationPending
  | badgeNameTaken
  | atLeastOneRuleRequired
  | ruleShapeInvalid
  | ruleTypeInvalid
  | ruleOperatorInvalid
  | value2Required
  | docValidationFailed
  | envFailure
deriving DecidableEq, Repr

/-- Model of `User.findById`. -/
def DB.findUser? (db : DB) (uid : ℕ) : Option UserDoc :=
  db.users.find? (fun u => u.id = uid)

/-- Model of `Challenge.findById`. -/
def DB.findChallenge? (db : DB) (cid : ℕ) : Option ChallengeDoc :=
  db.challenges.find? (fun c => c.id = cid)

/-- Model of `User.findByIdAndUpdate`: rewrite the matching user document in
place; a no-op when the user does not exist. -/
def DB.updateUser (db : DB) (uid : ℕ) (f : UserDoc → UserDoc) : DB :=
  { db with users := db.users.map (fun u => if u.id = uid then f u else u) }

/-- Model of `challenge.save()`: write back the mutated challenge document. -/
def DB.saveChallenge (db : DB) (c : ChallengeDoc) : DB :=
  { db with challenges := db.challenges.map (fun x => if x.id = c.id then c else x) }

/-- Model of `badge.save()` after mutating one badge document. -/
def DB.updateBadge (db : DB) (bid : ℕ) (f : BadgeDoc → BadgeDoc) : DB :=
  { db with badges := db.badges.map (fun b => if b.id = bid then f b else b) }

/-- The `Challenge.countDocuments` query in `prepareUserData`
(badge.service.ts:142-145): `{'participants.user': user._id,
'participants.completedAt': {$exists: true}}`.  Without `$elemMatch`
the two array conditions are matched independently: a challenge
qualifies when SOME participant is this user and SOME (possibly other)
participant has a completion timestamp. -/
def countCompletedChallengesQuery (db : DB) (uid : ℕ) : ℕ :=
  (db.challenges.filter (fun c =>
    c.participants.any (fun p => p.user = uid) &&
    c.participants.any (fun p => p.completedAt.isSome))).length

/-- The count the specification describes: challenges in which this
user's own participant record carries a completion timestamp. -/
def countOwnCompletedChallenges (db : DB) (uid : ℕ) : ℕ :=
  (db.challenges.filter (fun c =>
    c.participants.any (fun p => p.user = uid && p.completedAt.isSome))).length

/-- Model of `BadgeService.prepareUserData` (badge.service.ts:139-164): the
snapshot spread `{...userObj, stats: {...userObj.stats, trainingCount,
completedChallenges, totalTrainingMinutes}}` — the derived
`completedChallenges` overrides the persisted counter. -/
def prepareUserData (db : DB) (user : UserDoc) : JsVal :=
  let trainingCount : ℚ := (db.trainings.filter (fun t => t.user = user.id)).length
  let completedChallenges : ℚ := countCompletedChallengesQuery db user.id
  let totalTrainingMinutes : ℚ :=
    (((db.trainings.filter (fun t => t.user = user.id)).map (fun t => t.totalDuration)).sum : ℤ)
  .obj [
    ("_id", .num user.id),
    ("username", .str user.username),
    ("badges", .arr (user.badges.map (fun b => .num b))),
    ("friends", .arr (user.friends.map (fun f => .num f))),
    ("stats", .obj [
      ("totalChallenges", .num (user.stats.totalChallenges : ℚ)),
      ("completedChallenges", .num completedChallenges),
      ("totalCaloriesBurned", .num (user.stats.totalCaloriesBurned : ℚ)),
      ("totalWorkoutMinutes", .num (user.stats.totalWorkoutMinutes : ℚ)),
      ("score", .num (user.stats.score : ℚ)),
      ("trainingCount", .num trainingCount),
      ("totalTrainingMinutes", .num totalTrainingMinutes)])]

/-- The `for (const badge of automaticBadges)` loop of
`checkAndAwardBadges` (badge.service.ts:115-127).  `userBadgeIds` is
the badge-id list captured once before the loop; the in-memory user
document and the badge store are threaded; returns the updated badge
store, updated user document, and the newly earned badge ids in
iteration order. -/
def awardLoop (userData : JsVal) (userBadgeIds : List ℕ) :
    List BadgeDoc → UserDoc → List BadgeDoc → List BadgeDoc × UserDoc × List ℕ
  | [], user, store => (store, user, [])
  | b :: rest, user, store =>
      if b.id ∈ userBadgeIds then awardLoop userData userBadgeIds rest user store
      else if checkUserEligibility b userData then
        let user' : UserDoc :=
          { user with badges := user.badges ++ [b.id],
                      stats.score := user.stats.score + b.points }
        let store' := store.map (fun bd =>
          if bd.id = b.id then { bd with earnedCount := bd.earnedCount + 1 } else bd)
        let (store'', user'', earned) := awardLoop userData userBadgeIds rest user' store'
        (store'', user'', b.id :: earned)
      else awardLoop userData userBadgeIds rest user store

/-- Model of `BadgeService.checkAndAwardBadges` (badge.service.ts:103-134).
Returns the post-state, the newly earned badge ids, and the thrown
error if any (only "user not found").  `user.save()` runs only when at
least one badge was earned. -/
def checkAndAwardBadges (db : DB) (uid : ℕ) : DB × List ℕ × Option Err :=
  match db.findUser? uid with
  | none => (db, [], some .userNotFound)
  | some user =>
      let automaticBadges := db.badges.filter (fun b => b.isActive && b.isAutomatic)
      let r := awardLoop (prepareUserData db user) user.badges automaticBadges user db.badges
      let db' : DB := { db with badges := r.1 }
      let db'' := if r.2.2.isEmpty then db' else db'.updateUser uid (fun _ => r.2.1)
      (db'', r.2.2, none)

/-- Model of `challenge.startDate && new Date() < challenge.startDate`
(challenge.service.ts:153): a set start date lying in the future. -/
def startBlocked (c : ChallengeDoc) (now : ℕ) : Bool :=
  match c.startDate with | some s => now < s | none => false

/-- Model of `challenge.endDate && new Date() > challenge.endDate`
(challenge.service.ts:157): a set end date lying in the past. -/
def endBlocked (c : ChallengeDoc) (now : ℕ) : Bool :=
  match c.endDate with | some e => now > e | none => false

/-- Model of `ChallengeService.joinChallenge` (challenge.service.ts:134-174).
Precondition checks in source order, first failure wins; on success the
participant record `{user, joinedAt: now, progress: 0}` is appended and
the user's `stats.totalChallenges` is incremented. -/
def joinChallenge (db : DB) (cid uid : ℕ) (now : ℕ) : DB × Option Err :=
  match db.findChallenge? cid with
  | none => (db, some .challengeNotFound)
  | some c =>
      if !c.isActive then (db, some .challengeInactive)
      else if c.hasParticipant uid then (db, some .alreadyParticipating)
      else if c.isFull then (db, some .challengeFull)
      else if startBlocked c now then (db, some .challengeNotStarted)
      else if endBlocked c now then (db, some .challengeEnded)
      else
        let c' := { c with participants := c.participants ++ [⟨uid, now, 0, none⟩] }
        ((db.saveChallenge c').updateUser uid
          (fun u => { u with stats.totalChallenges := u.stats.totalChallenges + 1 }), none)

/-- Replace the first list element satisfying `p` by its image under `f`
(mutation of the first `find`/`findIndex` hit in the source). -/
def modifyFirst (p : α → Bool) (f : α → α) : List α → List α
  | [] => []
  | x :: xs => if p x then f x :: xs else x :: modifyFirst p f xs

/-- Remove the first list element satisfying `p` (`splice(index, 1)`). -/
def removeFirst (p : α → Bool) : List α → List α
  | [] => []
  | x :: xs => if p x then xs else x :: removeFirst p xs

/-- Model of `ChallengeService.leaveChallenge` (challenge.service.ts:179-204). -/
def leaveChallenge (db : DB) (cid uid : ℕ) : DB × Option Err :=
  match db.findChallenge? cid with
  | none => (db, some .challengeNotFound)
  | some c =>
      match c.participants.find? (fun p => p.user = uid) with
      | none => (db, some .notParticipating)
      | some p =>
          if p.completedAt.isSome then (db, some .alreadyCompletedChallenge)
          else
            let c' := { c with participants := removeFirst (fun q => q.user = uid) c.participants }
            ((db.saveChallenge c').updateUser uid
              (fun u => { u with stats.totalChallenges := u.stats.totalChallenges - 1 }), none)

/-- Model of `ChallengeService.updateProgress` (challenge.service.ts:209-252).
`badgeEnvFail` models the awaited `BadgeService.checkAndAwardBadges`
call being rejected by the environment (an I/O failure): the source has
no try/catch around it, so such a rejection propagates out of
`updateProgress` before `challenge.save()` runs — the user-stat
increments, already written by `User.findByIdAndUpdate`, survive, while
the challenge document does not get saved. -/
def updateProgress (db : DB) (cid uid : ℕ) (progress : ℚ) (now : ℕ)
    (badgeEnvFail : Bool) : DB × Option Err :=
  match db.findChallenge? cid with
  | none => (db, some .challengeNotFound)
  | some c =>
      match c.participants.find? (fun p => p.user = uid) with
      | none => (db, some .notParticipating)
      | some p =>
          let newProg : ℚ := min 100 (max 0 progress)
          if newProg = 100 ∧ p.completedAt = none then
            let parts' := modifyFirst (fun q => q.user = uid)
              (fun q => { q with progress := newProg, completedAt := some now })
              c.participants
            let c' := { c with participants := parts' }
            let db1 := db.updateUser uid (fun u =>
              { u with stats.completedChallenges := u.stats.completedChallenges + 1,
                       stats.score := u.stats.score + c.rewardPoints })
            match db.findUser? uid with
            | some _ =>
                if badgeEnvFail then (db1, some .envFailure)
                else
                  let r := checkAndAwardBadges db1 uid
                  match r.2.2 with
                  | some e => (r.1, some e)
                  | none => (r.1.saveChallenge c', none)
            | none => (db1.saveChallenge c', none)
          else
            let parts' := modifyFirst (fun q => q.user = uid)
              (fun q => { q with progress := newProg }) c.participants
            let c' := { c with participants := parts' }
            (db.saveChallenge c', none)

/-- Fresh invitation id: successor of the current maximum (mongo
generates object ids; only freshness matters here). -/
def DB.freshInvitationId (db : DB) : ℕ :=
  (db.invitations.map (fun i => i.id)).foldr max 0 + 1

/-- The `for (const friend of validFriends)` loop of
`ChallengeService.inviteFriends` (challenge.service.ts:371-398).  Each
iteration re-queries the live invitation store; a thrown error aborts
the loop but the invitations already created stay created. -/
def inviteLoop (c : ChallengeDoc) (inviter : UserDoc) :
    List UserDoc → DB → DB × Option Err
  | [], db => (db, none)
  | f :: rest, db =>
      if !(inviter.friends.contains f.id) then (db, some .notYourFriend)
      else if db.invitations.any (fun i =>
          i.challenge = c.id && i.recipient = f.id && i.status = "pending") then
        (db, some .invitationPending)
      else if c.hasParticipant f.id then (db, some .alreadyParticipating)
      else
        let inv : InvitationDoc :=
          ⟨db.freshInvitationId, c.id, inviter.id, f.id, "pending"⟩
        inviteLoop c inviter rest { db with invitations := db.invitations ++ [inv] }

/-- Model of `ChallengeService.inviteFriends` (challenge.service.ts:347-399).
`validFriends` is the distinct set of stored users whose id occurs in
`friendIds`; a length mismatch (unknown or duplicated ids) aborts
before the loop. -/
def inviteFriends (db : DB) (cid uid : ℕ) (friendIds : List ℕ) : DB × Option Err :=
  match db.findChallenge? cid with
  | none => (db, some .challengeNotFound)
  | some c =>
      match db.findUser? uid with
      | none => (db, some .userNotFound)
      | some inviter =>
          if !(c.hasParticipant uid) then (db, some .mustParticipateToInvite)
          else
            let validFriends := db.users.filter (fun u => friendIds.contains u.id)
            if validFriends.length ≠ friendIds.length then (db, some .invitedUsersMissing)
            else inviteLoop c inviter validFriends db

/-- Model of `ChallengeService.acceptInvitation` (challenge.service.ts:414-454). -/
def acceptInvitation (db : DB) (invId uid : ℕ) (now : ℕ) : DB × Option Err :=
  match db.invitations.find? (fun i =>
      i.id = invId && i.recipient = uid && i.status = "pending") with
  | none => (db, some .invitationNotFound)
  | some inv =>
      match db.findChallenge? inv.challenge with
      | none => (db, some .challengeNotFound)
      | some c =>
          let deleteInv (d : DB) : DB :=
            { d with invitations := d.invitations.filter (fun i => i.id ≠ inv.id) }
          if c.hasParticipant uid then (deleteInv db, some .alreadyParticipating)
          else if c.isFull then (db, some .challengeFull)
          else if !c.isActive then (db, some .challengeInactive)
          else
            let c' := { c with participants := c.participants ++ [⟨uid, now, 0, none⟩] }
            let db1 := deleteInv (db.saveChallenge c')
            (db1.updateUser uid
              (fun u => { u with stats.totalChallenges := u.stats.totalChallenges + 1 }), none)

/-- Model of `ChallengeService.rejectInvitation` (challenge.service.ts:459-468). -/
def rejectInvitation (db : DB) (invId uid : ℕ) : DB × Option Err :=
  match db.invitations.find? (fun i =>
      i.id = invId && i.recipient = uid && i.status = "pending") with
  | none => (db, some .invitationNotFound)
  | some inv =>
      ({ db with invitations := db.invitations.filter (fun i => i.id ≠ inv.id) },
       none)

/-- A rule as it arrives in a badge-creation request body.  An absent
`type`/`field`/`operator` is the empty string (falsy, like the absent
value); an absent `value` is `undefined`; an absent `value2` is `none`. -/
structure BadgeRuleReq where
  type : String
  field : String
  operator : String
  value : JsVal
  value2 : Option JsVal

/-- A badge-creation request body, restricted to the consulted fields. -/
structure BadgeCreateReq where
  name : String
  rules : List BadgeRuleReq
  points : ℤ
  isAutomatic : Bool

/-- The rule enums of the badge schema and of the custom-badge
controller (identical lists). -/
def validRuleTypes : List String :=
  ["user_stat", "challenge_completion", "training_count", "custom"]

/-- See `validRuleTypes`. -/
def validRuleOperators : List String :=
  ["equals", "greater_than", "less_than", "contains", "between"]

/-- Mongoose validation of one rule subdocument on `Badge.create`
(badge.model.ts:55-84): `type` required and in its enum, `field`
required, `operator` required and in its enum, `value` required (a
Mixed `required` rejects only null/undefined); `value2` is
unconstrained. -/
def badgeRuleSchemaOk (r : BadgeRuleReq) : Bool :=
  r.type ≠ "" && validRuleTypes.contains r.type &&
  r.field ≠ "" &&
  r.operator ≠ "" && validRuleOperators.contains r.operator &&
  !r.value.isNullish

/-- Mongoose document validation on `Badge.create` (badge.model.ts),
restricted to the modelled fields: non-empty name of at most 50
characters, a non-empty rule list whose members pass
`badgeRuleSchemaOk`, points within 0–1000. -/
def badgeDocSchemaOk (data : BadgeCreateReq) : Bool :=
  jsTrim data.name ≠ "" && (jsTrim data.name).length ≤ 50 &&
  !data.rules.isEmpty && data.rules.all badgeRuleSchemaOk &&
  0 ≤ data.points && data.points ≤ 1000

/-- Model of `BadgeService.createBadge` (badge.service.ts:22-34): name-collision
check, then `Badge.create` with schema validation; `nid` is the id
mongo assigns to the new document. -/
def createBadge (db : DB) (data : BadgeCreateReq) (nid : ℕ) : DB × Option Err :=
  if db.badges.any (fun b => b.name = data.name) then (db, some .badgeNameTaken)
  else if !badgeDocSchemaOk data then (db, some .docValidationFailed)
  else
    let doc : BadgeDoc :=
      { id := nid, name := data.name,
        rules := data.rules.map (fun r =>
          { type := r.type, field := r.field, operator := r.operator,
            value := r.value, value2 := r.value2 }),
        points := data.points, isActive := true,
        isAutomatic := data.isAutomatic, earnedCount := 0 }
    ({ db with badges := db.badges ++ [doc] }, none)

/-- The per-rule validation of `BadgeController.createCustomBadge`
(badge.controller.ts): shape (`!rule.type || !rule.field ||
!rule.operator || rule.value === undefined`), the type enum, the
operator enum, and `value2` required when `operator === 'between'`. -/
def validateCustomRule (r : BadgeRuleReq) : Option Err :=
  if r.type = "" || r.field = "" || r.operator = "" || r.value.isUndef then
    some .ruleShapeInvalid
  else if !validRuleTypes.contains r.type then some .ruleTypeInvalid
  else if !validRuleOperators.contains r.operator then some .ruleOperatorInvalid
  else if r.operator = "between" && r.value2.isNone then some .value2Required
  else none

/-- First error of the `for (const rule of rules)` validation loop. -/
def validateCustomRules : List BadgeRuleReq → Option Err
  | [] => none
  | r :: rest =>
      match validateCustomRule r with
      | some e => some e
      | none => validateCustomRules rest

/-- Model of `BadgeController.createCustomBadge` (badge.controller.ts): rule
list present and non-empty, every rule validated (first failure wins),
then `BadgeService.createBadge`. -/
def createCustomBadge (db : DB) (data : BadgeCreateReq) (nid : ℕ) : DB × Option Err :=
  if data.rules.isEmpty then (db, some .atLeastOneRuleRequired)
  else
    match validateCustomRules data.rules with
    | some e => (db, some e)
    | none => createBadge db data nid

/-- The stored participant record of a user in a challenge (inspection
helper). -/
def storedParticipant? (db : DB) (cid uid : ℕ) : Option Participant :=
  (db.findChallenge? cid).bind (fun c => c.participants.find? (fun p => p.user = uid))

/-- The stored stat counters of a user (inspection helper). -/
def statsOf? (db : DB) (uid : ℕ) : Option UserStats :=
  (db.findUser? uid).map (fun u => u.stats)

/-- Number of stored pending invitations for one (challenge, recipient)
pair (inspection helper). -/
def pendingCount (db : DB) (cid r : ℕ) : ℕ :=
  (db.invitations.filter (fun i =>
    i.challenge = cid && i.recipient = r && i.status = "pending")).length

/-- The invariant of the unique `{challenge, recipient}` index: at most
one pending invitation per pair. -/
def pendingUnique (db : DB) : Prop :=
  ∀ cid r : ℕ, pendingCount db cid r ≤ 1

/-- One operation of the participation state machine, for statements
about operation sequences.  `update` carries the flag for an
environment-failed badge check (see `updateProgress`). -/
inductive ChallengeOp where
  | join (uid now : ℕ)
  | leave (uid : ℕ)
  | update (uid : ℕ) (value : ℚ) (now : ℕ) (badgeEnvFail : Bool)

/-- Apply one operation to the store, targeting challenge `cid`;
a thrown error leaves whatever state the operation reached. -/
def applyOp (cid : ℕ) (db : DB) : ChallengeOp → DB
  | .join uid now => (joinChallenge db cid uid now).1
  | .leave uid => (leaveChallenge db cid uid).1
  | .update uid v now ef => (updateProgress db cid uid v now ef).1

/-- Apply a sequence of operations left to right. -/
def applyOps (cid : ℕ) (db : DB) (ops : List ChallengeOp) : DB :=
  ops.foldl (applyOp cid) db

/-- The boundary validation of `POST /api/badges`
(`createBadgeValidation`, badge.routes.ts:10-18), restricted to the
modelled fields: name non-empty, rules a non-empty array, points an
integer in 0–1000.  It inspects nothing inside the rules. -/
def createBadgeValidationOk (data : BadgeCreateReq) : Bool :=
  data.name ≠ "" && !data.rules.isEmpty &&
  0 ≤ data.points && data.points ≤ 1000

/-- The spec-side invariant of §3: a participant's progress is 100
exactly when the completion timestamp is set — stated here only in the
direction the code maintains plus the direction it violates being
checked separately. -/
def progressCompleteInv (db : DB) : Prop :=
  ∀ c ∈ db.challenges, ∀ p ∈ c.participants, p.progress = 100 → p.completedAt ≠ none

/- Concrete sample documents used by the witnesses and
counterexamples. -/

/-- All-zero stat counters. -/
def zeroStats : UserStats := ⟨0, 0, 0, 0, 0⟩

/-- Sample user 1, friend of user 2. -/
def userA : UserDoc := ⟨1, "alice", [], [2], zeroStats⟩

/-- Sample user 2, friend of user 1. -/
def userB : UserDoc := ⟨2, "bob", [], [1], zeroStats⟩

/-- An active challenge (id 10) with user 1 as its only participant,
worth 50 reward points, without capacity or date limits. -/
def chalMain : ChallengeDoc := ⟨10, true, none, none, none, 50, [⟨1, 2, 0, none⟩]⟩

/-- An active challenge (id 20) with capacity 1, already holding
user 1. -/
def chalCap : ChallengeDoc := ⟨20, true, none, none, some 1, 10, [⟨1, 2, 0, none⟩]⟩

/-- An active challenge (id 30) in which user 1 participates without a
completion timestamp while user 2 has one. -/
def chalMixed : ChallengeDoc :=
  ⟨30, true, none, none, none, 0, [⟨1, 2, 40, none⟩, ⟨2, 3, 100, some 5⟩]⟩

/-- An automatic active badge (id 7) requiring
`stats.completedChallenges > 0`. -/
def badgeAuto : BadgeDoc :=
  ⟨7, "first", [⟨"challenge_completion", "stats.completedChallenges",
    "greater_than", .num 0, none⟩], 5, true, true, 0⟩

/-- Sample store: both users, the three challenges, the automatic
badge, no trainings, one pending invitation (id 100) from user 1 to
user 2 for challenge 10. -/
def dbMain : DB :=
  ⟨[userA, userB], [chalMain, chalCap, chalMixed], [badgeAuto], [],
   [⟨100, 10, 1, 2, "pending"⟩]⟩

/-- A creation request whose only rule uses `between` without
`value2`. -/
def badReqBetweenNoV2 : BadgeCreateReq :=
  ⟨"century", [⟨"user_stat", "stats.score", "between", .num 10, none⟩], 5, true⟩

/-- The record `updateProgress` leaves for the targeted participant:
progress clamped into [0, 100], `completedAt` set exactly on the
completing transition (clamped value 100 while not already set). -/
def updatedParticipant (p : Participant) (v : ℚ) (now : ℕ) : Participant :=
  let newProg := min 100 (max 0 v)
  let newCompleted := if newProg = 100 ∧ p.completedAt = none then some now else p.completedAt
  { p with progress := newProg, completedAt := newCompleted }

/-! ### Shared lemmas -/

theorem find?_split {α : Type} {p : α → Bool} {l : List α} {a : α}
    (h : l.find? p = some a) :
    ∃ l1 l2, l = l1 ++ a :: l2 ∧ (∀ x ∈ l1, p x = false) ∧ p a = true := by
  induction l with
  | nil => simp at h
  | cons x xs ih =>
      by_cases hx : p x
      · rw [List.find?_cons_of_pos _ hx] at h
        exact ⟨[], xs, by simp [(Option.some_inj.mp h).symm], by simp, by
          simpa [Option.some_inj.mp h] using hx⟩
      · rw [List.find?_cons_of_neg _ hx] at h
        obtain ⟨l1, l2, hl, h1, ha⟩ := ih h
        exact ⟨x :: l1, l2, by simp [hl], by
          intro y hy
          rcases List.mem_cons.mp hy with rfl | hy
          · simpa using hx
          · exact h1 y hy, ha⟩

theorem modifyFirst_split {α : Type} (p : α → Bool) (f : α → α)
    (l1 l2 : List α) (a : α) (h1 : ∀ x ∈ l1, p x = false) (ha : p a = true) :
    modifyFirst p f (l1 ++ a :: l2) = l1 ++ f a :: l2 := by
  induction l1 with
  | nil => simp [modifyFirst, ha]
  | cons x xs ih =>
      have hx : p x = false := h1 x (by simp)
      simp only [List.cons_append, modifyFirst, hx]
      simp only [Bool.false_eq_true, if_false, List.cons.injEq, true_and]
      exact ih (fun y hy => h1 y (by simp [hy]))

theorem removeFirst_split {α : Type} (p : α → Bool)
    (l1 l2 : List α) (a : α) (h1 : ∀ x ∈ l1, p x = false) (ha : p a = true) :
    removeFirst p (l1 ++ a :: l2) = l1 ++ l2 := by
  induction l1 with
  | nil => simp [removeFirst, ha]
  | cons x xs ih =>
      have hx : p x = false := h1 x (by simp)
      simp only [List.cons_append, removeFirst, hx]
      simp only [Bool.false_eq_true, if_false, List.cons.injEq, true_and]
      exact ih (fun y hy => h1 y (by simp [hy]))

theorem find?_append_cons {α : Type} {p : α → Bool} (l1 l2 : List α) (a : α)
    (h1 : ∀ x ∈ l1, p x = false) :
    (l1 ++ a :: l2).find? p = if p a then some a else l2.find? p := by
  have hnil : l1.find? p = none := by
    apply List.find?_eq_none.mpr
    intro x hx
    simp [h1 x hx]
  rw [List.find?_append, hnil]
  by_cases hpa : p a
  · simp [List.find?_cons_of_pos _ hpa, hpa]
  · simp only [hpa, if_false]
    rw [List.find?_cons_of_neg _ hpa]
    simp

theorem DB.users_saveChallenge (db : DB) (c : ChallengeDoc) :
    (db.saveChallenge c).users = db.users := rfl

theorem DB.challenges_updateUser (db : DB) (uid : ℕ) (f : UserDoc → UserDoc) :
    (db.updateUser uid f).challenges = db.challenges := rfl

theorem findChallenge?_congr {db1 db2 : DB} (h : db1.challenges = db2.challenges)
    (cid : ℕ) : db1.findChallenge? cid = db2.findChallenge? cid := by
  unfold DB.findChallenge?
  rw [h]

theorem findUser?_congr {db1 db2 : DB} (h : db1.users = db2.users)
    (uid : ℕ) : db1.findUser? uid = db2.findUser? uid := by
  unfold DB.findUser?
  rw [h]

theorem statsOf?_congr {db1 db2 : DB} (h : db1.users = db2.users) (uid : ℕ) :
    statsOf? db1 uid = statsOf? db2 uid := by
  unfold statsOf?
  rw [findUser?_congr h]

theorem storedParticipant?_congr {db1 db2 : DB} (h : db1.challenges = db2.challenges)
    (cid uid : ℕ) : storedParticipant? db1 cid uid = storedParticipant? db2 cid uid := by
  unfold storedParticipant?
  rw [findChallenge?_congr h]

theorem findUser?_updateUser (db : DB) (uid : ℕ) (f : UserDoc → UserDoc)
    (hf : ∀ u : UserDoc, u.id = uid → (f u).id = uid) :
    (db.updateUser uid f).findUser? uid = (db.findUser? uid).map f := by
  unfold DB.updateUser DB.findUser?
  induction db.users with
  | nil => simp
  | cons u us ih =>
      by_cases hu : u.id = uid
      · have : (f u).id = uid := hf u hu
        simp only [List.map_cons, hu, if_true]
        rw [List.find?_cons_of_pos _ (by simpa using this),
          List.find?_cons_of_pos _ (by simpa using hu)]
        simp
      · simp only [List.map_cons, hu, if_false]
        rw [List.find?_cons_of_neg _ (by simpa using hu),
          List.find?_cons_of_neg _ (by simpa using hu)]
        exact ih

theorem find?_upsert_list (l : List ChallengeDoc) (c' : ChallengeDoc) (cid : ℕ)
    (hid : c'.id = cid) (hsome : (l.find? (fun c => c.id = cid)).isSome) :
    (l.map (fun x => if x.id = c'.id then c' else x)).find? (fun c => c.id = cid) =
      some c' := by
  induction l with
  | nil => simp at hsome
  | cons x xs ih =>
      by_cases hx : x.id = cid
      · have hxc : (if x.id = c'.id then c' else x) = c' := by simp [hx, hid]
        simp only [List.map_cons, hxc]
        exact List.find?_cons_of_pos _ (by simpa using hid)
      · have hxcne : ¬ x.id = c'.id := by rw [hid]; exact hx
        simp only [List.map_cons, hxcne, if_false]
        rw [List.find?_cons_of_neg _ (by simpa using hx)]
        rw [List.find?_cons_of_neg _ (by simpa using hx)] at hsome
        exact ih hsome

theorem find?_upsert_list_ne (l : List ChallengeDoc) (c' : ChallengeDoc) (cid : ℕ)
    (hne : cid ≠ c'.id) :
    (l.map (fun x => if x.id = c'.id then c' else x)).find? (fun c => c.id = cid) =
      l.find? (fun c => c.id = cid) := by
  induction l with
  | nil => simp
  | cons x xs ih =>
      by_cases hx : x.id = cid
      · have hxcne : ¬ x.id = c'.id := by rw [hx]; omega
        simp only [List.map_cons, hxcne, if_false]
        rw [List.find?_cons_of_pos _ (by simpa using hx),
          List.find?_cons_of_pos _ (by simpa using hx)]
      · by_cases hxc : x.id = c'.id
        · simp only [List.map_cons, hxc, if_true]
          rw [List.find?_cons_of_neg _ (by simp; omega),
            List.find?_cons_of_neg _ (by simpa using hx)]
          exact ih
        · simp only [List.map_cons, hxc, if_false]
          rw [List.find?_cons_of_neg _ (by simpa using hx),
            List.find?_cons_of_neg _ (by simpa using hx)]
          exact ih

theorem findChallenge?_saveChallenge (db : DB) (c' : ChallengeDoc) (cid : ℕ)
    (hid : c'.id = cid) (hsome : (db.findChallenge? cid).isSome) :
    (db.saveChallenge c').findChallenge? cid = some c' := by
  have := find?_upsert_list db.challenges c' cid hid
    (by simpa [DB.findChallenge?] using hsome)
  simpa [DB.saveChallenge, DB.findChallenge?] using this

theorem findChallenge?_saveChallenge_ne (db : DB) (c' : ChallengeDoc) (cid : ℕ)
    (hne : cid ≠ c'.id) :
    (db.saveChallenge c').findChallenge? cid = db.findChallenge? cid := by
  have := find?_upsert_list_ne db.challenges c' cid hne
  simpa [DB.saveChallenge, DB.findChallenge?] using this

theorem awardLoop_spec (ud : JsVal) (ubids : List ℕ) :
    ∀ (bs : List BadgeDoc) (user : UserDoc) (store : List BadgeDoc),
      (awardLoop ud ubids bs user store).2.1.id = user.id ∧
      (awardLoop ud ubids bs user store).2.1.badges =
        user.badges ++ (awardLoop ud ubids bs user store).2.2 ∧
      (∀ i ∈ (awardLoop ud ubids bs user store).2.2, i ∉ ubids) ∧
      (awardLoop ud ubids bs user store).2.1.stats.completedChallenges =
        user.stats.completedChallenges ∧
      (awardLoop ud ubids bs user store).2.1.stats.totalChallenges =
        user.stats.totalChallenges ∧
      (awardLoop ud ubids bs user store).2.1.username = user.username ∧
      (awardLoop ud ubids bs user store).2.1.friends = user.friends := by
  intro bs
  induction bs with
  | nil => intro user store; simp [awardLoop]
  | cons b rest ih =>
      intro user store
      by_cases hmem : b.id ∈ ubids
      · simpa [awardLoop, hmem] using ih user store
      · by_cases helig : checkUserEligibility b ud
        · obtain ⟨h1, h2, h3, h4, h5, h6, h7⟩ := ih
            { user with badges := user.badges ++ [b.id],
                        stats.score := user.stats.score + b.points }
            (store.map (fun bd =>
              if bd.id = b.id then { bd with earnedCount := bd.earnedCount + 1 } else bd))
          refine ⟨?_, ?_, ?_, ?_, ?_, ?_, ?_⟩ <;>
            simp only [awardLoop, hmem, if_false, helig, if_true]
          · simpa using h1
          · simpa using h2
          · intro i hi
            simp only [List.mem_cons] at hi
            rcases hi with rfl | hi
            · exact hmem
            · exact h3 i hi
          · simpa using h4
          · simpa using h5
          · simpa using h6
          · simpa using h7
        · simpa [awardLoop, hmem, helig] using ih user store

theorem checkAndAward_challenges (db : DB) (uid : ℕ) :
    (checkAndAwardBadges db uid).1.challenges = db.challenges := by
  unfold checkAndAwardBadges
  cases h : db.findUser? uid with
  | none => rfl
  | some u =>
      simp only []
      split <;> rfl

theorem checkAndAward_invitations (db : DB) (uid : ℕ) :
    (checkAndAwardBadges db uid).1.invitations = db.invitations := by
  unfold checkAndAwardBadges
  cases h : db.findUser? uid with
  | none => rfl
  | some u =>
      simp only []
      split <;> rfl

theorem findUser?_setBadges (db : DB) (store : List BadgeDoc) (uid : ℕ) :
    (({ db with badges := store } : DB)).findUser? uid = db.findUser? uid := rfl

theorem checkAndAward_spec (db : DB) (uid : ℕ) (u : UserDoc)
    (hu : db.findUser? uid = some u) :
    (checkAndAwardBadges db uid).2.2 = none ∧
    (∀ i ∈ (checkAndAwardBadges db uid).2.1, i ∉ u.badges) ∧
    ∃ u', (checkAndAwardBadges db uid).1.findUser? uid = some u' ∧
      u'.badges = u.badges ++ (checkAndAwardBadges db uid).2.1 ∧
      u'.stats.completedChallenges = u.stats.completedChallenges ∧
      u'.id = u.id := by
  have huid : u.id = uid := by
    have := List.find?_some hu
    simpa using this
  obtain ⟨h1, h2, h3, h4, h5, h6, h7⟩ := awardLoop_spec (prepareUserData db u) u.badges
    (db.badges.filter (fun b => b.isActive && b.isAutomatic)) u db.badges
  unfold checkAndAwardBadges
  rw [hu]
  simp only []
  refine ⟨by trivial, h3, ?_⟩
  by_cases hempty :
      (awardLoop (prepareUserData db u) u.badges
        (db.badges.filter (fun b => b.isActive && b.isAutomatic)) u db.badges).2.2.isEmpty
  · refine ⟨u, ?_, ?_, rfl, rfl⟩
    · simp only [hempty, if_true]
      exact hu
    · rw [List.isEmpty_iff.mp hempty]
      simp
  · refine ⟨(awardLoop (prepareUserData db u) u.badges
        (db.badges.filter (fun b => b.isActive && b.isAutomatic)) u db.badges).2.1,
      ?_, h2, h4, by rw [h1, huid]⟩
    simp only [hempty, Bool.false_eq_true, if_false]
    rw [findUser?_updateUser _ _ _ (fun w _ => by rw [h1, huid])]
    rw [findUser?_setBadges, hu]
    rfl

theorem find?_append_left {α : Type} {p : α → Bool} {l1 : List α} (l2 : List α)
    {q : α} (hq : l1.find? p = some q) : (l1 ++ l2).find? p = some q := by
  rw [List.find?_append, hq]
  rfl

theorem find?_middle_replace {α : Type} {p : α → Bool} {l1 l2 : List α} {a b q : α}
    (hq : (l1 ++ a :: l2).find? p = some q) (hpa : p a = false) (hpb : p b = false) :
    (l1 ++ b :: l2).find? p = some q := by
  rw [List.find?_append] at hq ⊢
  cases h1 : l1.find? p with
  | some x => rw [h1] at hq; simpa using hq
  | none =>
      rw [h1] at hq
      simp only [Option.none_or] at hq ⊢
      rw [List.find?_cons_of_neg _ (by simp [hpa])] at hq
      rw [List.find?_cons_of_neg _ (by simp [hpb])]
      exact hq

theorem find?_middle_remove {α : Type} {p : α → Bool} {l1 l2 : List α} {a q : α}
    (hq : (l1 ++ a :: l2).find? p = some q) (hpa : p a = false) :
    (l1 ++ l2).find? p = some q := by
  rw [List.find?_append] at hq ⊢
  cases h1 : l1.find? p with
  | some x => rw [h1] at hq; simpa using hq
  | none =>
      rw [h1] at hq
      simp only [Option.none_or] at hq ⊢
      rw [List.find?_cons_of_neg _ (by simp [hpa])] at hq
      exact hq

theorem progressCompleteInv_congr {db1 db2 : DB} (hch : db1.challenges = db2.challenges)
    (h : progressCompleteInv db2) : progressCompleteInv db1 := by
  intro c hc
  rw [hch] at hc
  exact h c hc

theorem inv_saveChallenge (db0 db : DB) (hch : db0.challenges = db.challenges)
    (h : progressCompleteInv db) (cP : ChallengeDoc)
    (hparts : ∀ q ∈ cP.participants, q.progress = 100 → q.completedAt ≠ none) :
    progressCompleteInv (db0.saveChallenge cP) := by
  intro c2 hc2 q hq hprog
  unfold DB.saveChallenge at hc2
  simp only [List.mem_map] at hc2
  rw [hch] at hc2
  obtain ⟨x, hx, hgx⟩ := hc2
  by_cases hxe : x.id = cP.id
  · rw [if_pos hxe] at hgx
    subst hgx
    exact hparts q hq hprog
  · rw [if_neg hxe] at hgx
    subst hgx
    exact h x hx q hq hprog

theorem updateProgress_eq_notFound (db : DB) (cid uid : ℕ) (v : ℚ) (now : ℕ)
    (ef : Bool) (hc : db.findChallenge? cid = none) :
    updateProgress db cid uid v now ef = (db, some .challengeNotFound) := by
  unfold updateProgress
  rw [hc]

theorem updateProgress_eq_noPart (db : DB) (cid uid : ℕ) (v : ℚ) (now : ℕ)
    (ef : Bool) (c : ChallengeDoc) (hc : db.findChallenge? cid = some c)
    (hp : c.participants.find? (fun q => q.user = uid) = none) :
    updateProgress db cid uid v now ef = (db, some .notParticipating) := by
  unfold updateProgress
  rw [hc]
  simp only []
  rw [hp]

theorem updateProgress_eq_noncompleting (db : DB) (cid uid : ℕ) (v : ℚ) (now : ℕ)
    (ef : Bool) (c : ChallengeDoc) (p : Participant)
    (hc : db.findChallenge? cid = some c)
    (hp : c.participants.find? (fun q => q.user = uid) = some p)
    (hn : ¬(min 100 (max 0 v) = 100 ∧ p.completedAt = none)) :
    updateProgress db cid uid v now ef =
      (db.saveChallenge { c with participants := (modifyFirst (fun q => q.user = uid)
        (fun q => { q with progress := min 100 (max 0 v) }) c.participants) }, none) := by
  unfold updateProgress
  rw [hc]
  simp only []
  rw [hp]
  simp only []
  rw [if_neg hn]

theorem updateProgress_eq_completing_nouser (db : DB) (cid uid : ℕ) (v : ℚ) (now : ℕ)
    (ef : Bool) (c : ChallengeDoc) (p : Participant)
    (hc : db.findChallenge? cid = some c)
    (hp : c.participants.find? (fun q => q.user = uid) = some p)
    (hcomp : min 100 (max 0 v) = 100 ∧ p.completedAt = none)
    (hu : db.findUser? uid = none) :
    updateProgress db cid uid v now ef =
      ((db.updateUser uid (fun w =>
        { w with stats.completedChallenges := w.stats.completedChallenges + 1,
                 stats.score := w.stats.score + c.rewardPoints })).saveChallenge
        { c with participants := (modifyFirst (fun q => q.user = uid)
          (fun q => { q with progress := min 100 (max 0 v), completedAt := some now })
          c.participants) }, none) := by
  unfold updateProgress
  rw [hc]
  simp only []
  rw [hp]
  simp only []
  rw [if_pos hcomp, hu]

theorem updateProgress_eq_completing_envfail (db : DB) (cid uid : ℕ) (v : ℚ) (now : ℕ)
    (c : ChallengeDoc) (p : Participant) (u : UserDoc)
    (hc : db.findChallenge? cid = some c)
    (hp : c.participants.find? (fun q => q.user = uid) = some p)
    (hcomp : min 100 (max 0 v) = 100 ∧ p.completedAt = none)
    (hu : db.findUser? uid = some u) :
    updateProgress db cid uid v now true =
      (db.updateUser uid (fun w =>
        { w with stats.completedChallenges := w.stats.completedChallenges + 1,
                 stats.score := w.stats.score + c.rewardPoints }), some .envFailure) := by
  unfold updateProgress
  rw [hc]
  simp only []
  rw [hp]
  simp only []
  rw [if_pos hcomp, hu]
  simp only [if_true]

theorem updateProgress_eq_completing (db : DB) (cid uid : ℕ) (v : ℚ) (now : ℕ)
    (c : ChallengeDoc) (p : Participant) (u : UserDoc)
    (hc : db.findChallenge? cid = some c)
    (hp : c.participants.find? (fun q => q.user = uid) = some p)
    (hcomp : min 100 (max 0 v) = 100 ∧ p.completedAt = none)
    (hu : db.findUser? uid = some u) :
    updateProgress db cid uid v now false =
      ((checkAndAwardBadges (db.updateUser uid (fun w =>
        { w with stats.completedChallenges := w.stats.completedChallenges + 1,
                 stats.score := w.stats.score + c.rewardPoints })) uid).1.saveChallenge
        { c with participants := (modifyFirst (fun q => q.user = uid)
          (fun q => { q with progress := min 100 (max 0 v), completedAt := some now })
          c.participants) }, none) := by
  have hid : ∀ w : UserDoc, w.id = uid → (({ w with
      stats.completedChallenges := w.stats.completedChallenges + 1,
      stats.score := w.stats.score + c.rewardPoints } : UserDoc)).id = uid := by
    intro w hw
    exact hw
  have hu1 : (db.updateUser uid (fun w =>
      { w with stats.completedChallenges := w.stats.completedChallenges + 1,
               stats.score := w.stats.score + c.rewardPoints })).findUser? uid =
      some { u with stats.completedChallenges := u.stats.completedChallenges + 1,
                    stats.score := u.stats.score + c.rewardPoints } := by
    rw [findUser?_updateUser _ _ _ hid, hu]
    rfl
  obtain ⟨herr, -, -⟩ := checkAndAward_spec _ uid _ hu1
  unfold updateProgress
  rw [hc]
  simp only []
  rw [hp]
  simp only []
  rw [if_pos hcomp, hu]
  simp only [if_false, Bool.false_eq_true]
  rw [herr]

theorem joinChallenge_eq_success (db : DB) (cid uid now : ℕ) (c : ChallengeDoc)
    (hc : db.findChallenge? cid = some c)
    (h1 : c.isActive = true) (h2 : c.hasParticipant uid = false)
    (h3 : c.isFull = false) (h4 : startBlocked c now = false)
    (h5 : endBlocked c now = false) :
    joinChallenge db cid uid now =
      ((db.saveChallenge { c with participants :=
          c.participants ++ [⟨uid, now, 0, none⟩] }).updateUser uid
        (fun u => { u with stats.totalChallenges := u.stats.totalChallenges + 1 }),
       none) := by
  unfold joinChallenge
  rw [hc]
  simp only [h1, h2, h3, h4, h5, Bool.not_true, Bool.false_eq_true, if_false]

theorem leaveChallenge_eq_success (db : DB) (cid uid : ℕ) (c : ChallengeDoc)
    (p : Participant) (hc : db.findChallenge? cid = some c)
    (hp : c.participants.find? (fun q => q.user = uid) = some p)
    (hdone : p.completedAt = none) :
    leaveChallenge db cid uid =
      ((db.saveChallenge { c with participants :=
          (removeFirst (fun q => q.user = uid) c.participants) }).updateUser uid
        (fun u => { u with stats.totalChallenges := u.stats.totalChallenges - 1 }),
       none) := by
  unfold leaveChallenge
  rw [hc]
  simp only []
  rw [hp]
  simp only [hdone, Option.isSome_none, Bool.false_eq_true, if_false]

theorem inv_joinChallenge (db : DB) (cid uid now : ℕ) (h : progressCompleteInv db) :
    progressCompleteInv (joinChallenge db cid uid now).1 := by
  unfold joinChallenge
  cases hc : db.findChallenge? cid with
  | none => exact h
  | some c =>
      simp only []
      split
      · exact h
      split
      · exact h
      split
      · exact h
      split
      · exact h
      split
      · exact h
      simp only []
      apply progressCompleteInv_congr (DB.challenges_updateUser _ _ _)
      apply inv_saveChallenge _ db rfl h
      intro q hq hprog
      simp only [List.mem_append, List.mem_singleton] at hq
      rcases hq with hq | rfl
      · exact h c (List.mem_of_find?_eq_some hc) q hq hprog
      · norm_num at hprog

theorem inv_leaveChallenge (db : DB) (cid uid : ℕ) (h : progressCompleteInv db) :
    progressCompleteInv (leaveChallenge db cid uid).1 := by
  unfold leaveChallenge
  cases hc : db.findChallenge? cid with
  | none => exact h
  | some c =>
      simp only []
      cases hp : c.participants.find? (fun q => q.user = uid) with
      | none => exact h
      | some p =>
          simp only []
          split
          · exact h
          simp only []
          apply progressCompleteInv_congr (DB.challenges_updateUser _ _ _)
          apply inv_saveChallenge _ db rfl h
          intro q hq hprog
          obtain ⟨l1, l2, hsplit, hl1, hpa⟩ := find?_split hp
          rw [hsplit, removeFirst_split _ _ _ _ hl1 hpa] at hq
          have : q ∈ c.participants := by
            rw [hsplit]
            simp only [List.mem_append, List.mem_cons] at hq ⊢
            tauto
          exact h c (List.mem_of_find?_eq_some hc) q this hprog

theorem inv_updateProgress (db : DB) (cid uid : ℕ) (v : ℚ) (now : ℕ) (ef : Bool)
    (h : progressCompleteInv db) :
    progressCompleteInv (updateProgress db cid uid v now ef).1 := by
  cases hc : db.findChallenge? cid with
  | none => rw [updateProgress_eq_notFound db cid uid v now ef hc]; exact h
  | some c =>
      cases hp : c.participants.find? (fun q => q.user = uid) with
      | none => rw [updateProgress_eq_noPart db cid uid v now ef c hc hp]; exact h
      | some p =>
          have hcmem : c ∈ db.challenges := List.mem_of_find?_eq_some hc
          obtain ⟨l1, l2, hsplit, hl1, hpa⟩ := find?_split hp
          by_cases hcomp : min 100 (max 0 v) = 100 ∧ p.completedAt = none
          · -- completion transition
            have hparts : ∀ q ∈ (modifyFirst (fun q => q.user = uid)
                (fun q => { q with progress := min 100 (max 0 v), completedAt := some now })
                c.participants), q.progress = 100 → q.completedAt ≠ none := by
              rw [hsplit, modifyFirst_split _ _ _ _ _ hl1 hpa]
              intro q hq hprog
              simp only [List.mem_append, List.mem_cons] at hq
              rcases hq with hq | rfl | hq
              · exact h c hcmem q (by rw [hsplit]; simp [hq]) hprog
              · simp
              · exact h c hcmem q (by rw [hsplit]; simp [hq]) hprog
            cases hu : db.findUser? uid with
            | none =>
                rw [updateProgress_eq_completing_nouser db cid uid v now ef c p hc hp hcomp hu]
                apply inv_saveChallenge _ db (DB.challenges_updateUser _ _ _) h
                exact hparts
            | some u =>
                cases ef with
                | true =>
                    rw [updateProgress_eq_completing_envfail db cid uid v now c p u hc hp hcomp hu]
                    exact progressCompleteInv_congr (DB.challenges_updateUser _ _ _) h
                | false =>
                    rw [updateProgress_eq_completing db cid uid v now c p u hc hp hcomp hu]
                    apply inv_saveChallenge _ db ?_ h
                    · exact hparts
                    · rw [checkAndAward_challenges]
                      exact DB.challenges_updateUser _ _ _
          · -- no transition
            rw [updateProgress_eq_noncompleting db cid uid v now ef c p hc hp hcomp]
            apply inv_saveChallenge _ db rfl h
            rw [hsplit, modifyFirst_split _ _ _ _ _ hl1 hpa]
            intro q hq hprog
            simp only [List.mem_append, List.mem_cons] at hq
            rcases hq with hq | rfl | hq
            · exact h c hcmem q (by rw [hsplit]; simp [hq]) hprog
            · simp only [] at hprog
              have hpc : p.completedAt ≠ none := by
                intro hnone
                exact hcomp ⟨hprog, hnone⟩
              simpa using hpc
            · exact h c hcmem q (by rw [hsplit]; simp [hq]) hprog

theorem mono_saveChallenge_case (db0 db : DB) (hch : db0.challenges = db.challenges)
    (cidX uidX : ℕ) (q : Participant)
    (hq : storedParticipant? db cidX uidX = some q)
    (cP : ChallengeDoc)
    (hfind : cidX = cP.id →
      ∃ q', cP.participants.find? (fun r => r.user = uidX) = some q' ∧
        q'.completedAt = q.completedAt) :
    ∃ q', storedParticipant? (db0.saveChallenge cP) cidX uidX = some q' ∧
      q'.completedAt = q.completedAt := by
  by_cases hid : cidX = cP.id
  · have hsome : ((db0.saveChallenge cP).findChallenge? cidX) = some cP := by
      apply findChallenge?_saveChallenge _ _ _ hid.symm
      rw [findChallenge?_congr hch]
      unfold storedParticipant? at hq
      cases hfc : db.findChallenge? cidX with
      | none => rw [hfc] at hq; simp at hq
      | some c0 => simp
    unfold storedParticipant?
    rw [hsome]
    obtain ⟨q', hfind, hq'⟩ := hfind hid
    exact ⟨q', by simpa using hfind, hq'⟩
  · refine ⟨q, ?_, rfl⟩
    unfold storedParticipant? at hq ⊢
    rw [findChallenge?_saveChallenge_ne _ _ _ hid, findChallenge?_congr hch]
    exact hq

theorem stored_eq_of_findChallenge {db : DB} {cidX uidX : ℕ} {q : Participant}
    {c : ChallengeDoc} (hq : storedParticipant? db cidX uidX = some q)
    (hc : db.findChallenge? cidX = some c) :
    c.participants.find? (fun r => r.user = uidX) = some q := by
  unfold storedParticipant? at hq
  rw [hc] at hq
  simpa using hq

theorem mono_joinChallenge (db : DB) (cid uid now cidX uidX : ℕ) (q : Participant)
    (hq : storedParticipant? db cidX uidX = some q) :
    ∃ q', storedParticipant? (joinChallenge db cid uid now).1 cidX uidX = some q' ∧
      q'.completedAt = q.completedAt := by
  unfold joinChallenge
  cases hc : db.findChallenge? cid with
  | none => exact ⟨q, hq, rfl⟩
  | some c =>
      simp only []
      split
      · exact ⟨q, hq, rfl⟩
      split
      · exact ⟨q, hq, rfl⟩
      split
      · exact ⟨q, hq, rfl⟩
      split
      · exact ⟨q, hq, rfl⟩
      split
      · exact ⟨q, hq, rfl⟩
      simp only []
      have key := mono_saveChallenge_case db db rfl cidX uidX q hq
        { c with participants := c.participants ++ [⟨uid, now, 0, none⟩] } ?_
      · obtain ⟨q', hfound, hcomp⟩ := key
        refine ⟨q', ?_, hcomp⟩
        rw [storedParticipant?_congr (DB.challenges_updateUser _ _ _)]
        exact hfound
      · intro hid
        have hcid : c.id = cid := by simpa using List.find?_some hc
        have hceq : db.findChallenge? cidX = some c := by rw [hid, hcid]; exact hc
        have hfound := stored_eq_of_findChallenge hq hceq
        exact ⟨q, find?_append_left _ hfound, rfl⟩

theorem mono_leaveChallenge (db : DB) (cid uid cidX uidX : ℕ) (q : Participant)
    (t : ℕ) (hq : storedParticipant? db cidX uidX = some q)
    (ht : q.completedAt = some t) :
    ∃ q', storedParticipant? (leaveChallenge db cid uid).1 cidX uidX = some q' ∧
      q'.completedAt = some t := by
  unfold leaveChallenge
  cases hc : db.findChallenge? cid with
  | none => exact ⟨q, hq, ht⟩
  | some c =>
      simp only []
      cases hp : c.participants.find? (fun r => r.user = uid) with
      | none => exact ⟨q, hq, ht⟩
      | some p0 =>
          simp only []
          split
          · exact ⟨q, hq, ht⟩
          next hdone =>
            simp only []
            have hcid : c.id = cid := by simpa using List.find?_some hc
            have hp0uid : p0.user = uid := by simpa using List.find?_some hp
            rw [← ht]
            have key := mono_saveChallenge_case db db rfl cidX uidX q hq
              { c with participants := (removeFirst (fun r => r.user = uid) c.participants) } ?_
            · obtain ⟨q', hfound, hcomp⟩ := key
              refine ⟨q', ?_, hcomp⟩
              rw [storedParticipant?_congr (DB.challenges_updateUser _ _ _)]
              exact hfound
            · intro hid
              have hceq : db.findChallenge? cidX = some c := by
                rw [hid]
                show db.findChallenge? c.id = some c
                rw [hcid]
                exact hc
              have hfound := stored_eq_of_findChallenge hq hceq
              by_cases huid : uidX = uid
              · subst huid
                rw [hp] at hfound
                have hq0 : p0 = q := by simpa using hfound
                rw [hq0, ht] at hdone
                simp at hdone
              · obtain ⟨l1, l2, hsplit, hl1, hpa⟩ := find?_split hp
                rw [hsplit] at hfound
                rw [hsplit, removeFirst_split _ _ _ _ hl1 hpa]
                refine ⟨q, ?_, rfl⟩
                apply find?_middle_remove hfound
                simp only [decide_eq_false_iff_not, hp0uid]
                omega

theorem mono_updateProgress (db : DB) (cid uid : ℕ) (v : ℚ) (now : ℕ) (ef : Bool)
    (cidX uidX : ℕ) (q : Participant) (t : ℕ)
    (hq : storedParticipant? db cidX uidX = some q)
    (ht : q.completedAt = some t) :
    ∃ q', storedParticipant? (updateProgress db cid uid v now ef).1 cidX uidX = some q' ∧
      q'.completedAt = some t := by
  cases hc : db.findChallenge? cid with
  | none => rw [updateProgress_eq_notFound db cid uid v now ef hc]; exact ⟨q, hq, ht⟩
  | some c =>
      cases hp : c.participants.find? (fun r => r.user = uid) with
      | none => rw [updateProgress_eq_noPart db cid uid v now ef c hc hp]; exact ⟨q, hq, ht⟩
      | some p0 =>
          have hcid : c.id = cid := by simpa using List.find?_some hc
          have hp0uid : p0.user = uid := by simpa using List.find?_some hp
          obtain ⟨l1, l2, hsplit, hl1, hpa⟩ := find?_split hp
          have hceq : cidX = c.id → db.findChallenge? cidX = some c := by
            intro hid
            rw [hid]
            show db.findChallenge? c.id = some c
            rw [hcid]
            exact hc
          by_cases hcomp : min 100 (max 0 v) = 100 ∧ p0.completedAt = none
          · have hfind : cidX = ({ c with participants := (modifyFirst (fun r => r.user = uid)
                (fun r => { r with progress := min 100 (max 0 v), completedAt := some now })
                c.participants) } : ChallengeDoc).id →
                ∃ q', (({ c with participants := (modifyFirst (fun r => r.user = uid)
                  (fun r => { r with progress := min 100 (max 0 v), completedAt := some now })
                  c.participants) } : ChallengeDoc).participants.find?
                    (fun r => r.user = uidX)) = some q' ∧
                  q'.completedAt = q.completedAt := by
              intro hid
              have hfound := stored_eq_of_findChallenge hq (hceq hid)
              simp only []
              by_cases huid : uidX = uid
              · subst huid
                rw [hp] at hfound
                have hq0 : p0 = q := by simpa using hfound
                rw [hq0, ht] at hcomp
                simp at hcomp
              · rw [hsplit] at hfound
                rw [hsplit, modifyFirst_split _ _ _ _ _ hl1 hpa]
                refine ⟨q, ?_, rfl⟩
                apply find?_middle_replace hfound
                · simp only [decide_eq_false_iff_not, hp0uid]
                  omega
                · simp only [decide_eq_false_iff_not, hp0uid]
                  omega
            cases hu : db.findUser? uid with
            | none =>
                rw [updateProgress_eq_completing_nouser db cid uid v now ef c p0 hc hp hcomp hu]
                rw [← ht]
                exact mono_saveChallenge_case _ db (DB.challenges_updateUser _ _ _) cidX uidX q hq
                  { c with participants := (modifyFirst (fun r => r.user = uid)
                    (fun r => { r with progress := min 100 (max 0 v), completedAt := some now })
                    c.participants) } hfind
            | some u =>
                cases ef with
                | true =>
                    rw [updateProgress_eq_completing_envfail db cid uid v now c p0 u hc hp hcomp hu]
                    refine ⟨q, ?_, ht⟩
                    rw [storedParticipant?_congr (DB.challenges_updateUser _ _ _)]
                    exact hq
                | false =>
                    rw [updateProgress_eq_completing db cid uid v now c p0 u hc hp hcomp hu]
                    rw [← ht]
                    refine mono_saveChallenge_case _ db ?_ cidX uidX q hq
                      { c with participants := (modifyFirst (fun r => r.user = uid)
                        (fun r => { r with progress := min 100 (max 0 v), completedAt := some now })
                        c.participants) } hfind
                    rw [checkAndAward_challenges]
                    exact DB.challenges_updateUser _ _ _
          · rw [updateProgress_eq_noncompleting db cid uid v now ef c p0 hc hp hcomp]
            rw [← ht]
            refine mono_saveChallenge_case db db rfl cidX uidX q hq
              { c with participants := (modifyFirst (fun r => r.user = uid)
                (fun r => { r with progress := min 100 (max 0 v) })
                c.participants) } ?_
            intro hid
            have hfound := stored_eq_of_findChallenge hq (hceq hid)
            simp only []
            by_cases huid : uidX = uid
            · subst huid
              rw [hp] at hfound
              have hq0 : p0 = q := by simpa using hfound
              rw [hsplit, modifyFirst_split _ _ _ _ _ hl1 hpa]
              refine ⟨{ p0 with progress := min 100 (max 0 v) }, ?_, by rw [hq0]⟩
              rw [find?_append_cons _ _ _ hl1]
              simp [hp0uid]
            · rw [hsplit] at hfound
              rw [hsplit, modifyFirst_split _ _ _ _ _ hl1 hpa]
              refine ⟨q, ?_, rfl⟩
              apply find?_middle_replace hfound
              · simp only [decide_eq_false_iff_not, hp0uid]
                omega
              · simp only [decide_eq_false_iff_not, hp0uid]
                omega

theorem stored_after_save_modify (db0 : DB) (c : ChallengeDoc) (cid uid : ℕ)
    (p : Participant) (f : Participant → Participant) (hcid : c.id = cid)
    (hsome : (db0.findChallenge? cid).isSome)
    (hp : c.participants.find? (fun r => r.user = uid) = some p)
    (hfuser : (f p).user = uid) :
    storedParticipant? (db0.saveChallenge { c with participants :=
      (modifyFirst (fun r => r.user = uid) f c.participants) }) cid uid = some (f p) := by
  obtain ⟨l1, l2, hsplit, hl1, hpa⟩ := find?_split hp
  unfold storedParticipant?
  rw [findChallenge?_saveChallenge _ _ _ (show
    ({ c with participants := (modifyFirst (fun r => r.user = uid) f c.participants) } :
      ChallengeDoc).id = cid from hcid) hsome]
  show (modifyFirst (fun r => r.user = uid) f c.participants).find?
    (fun r => r.user = uid) = some (f p)
  rw [hsplit, modifyFirst_split _ _ _ _ _ hl1 hpa, find?_append_cons _ _ _ hl1]
  simp [hfuser]

theorem inv_applyOp (cid : ℕ) (db : DB) (op : ChallengeOp)
    (h : progressCompleteInv db) : progressCompleteInv (applyOp cid db op) := by
  cases op with
  | join uid now => exact inv_joinChallenge db cid uid now h
  | leave uid => exact inv_leaveChallenge db cid uid h
  | update uid v now ef => exact inv_updateProgress db cid uid v now ef h

theorem inv_applyOps (cid : ℕ) (ops : List ChallengeOp) :
    ∀ db : DB, progressCompleteInv db → progressCompleteInv (applyOps cid db ops) := by
  induction ops with
  | nil => intro db h; exact h
  | cons op rest ih =>
      intro db h
      exact ih (applyOp cid db op) (inv_applyOp cid db op h)

theorem mono_applyOp (cid : ℕ) (db : DB) (op : ChallengeOp) (cidX uidX : ℕ)
    (q : Participant) (t : ℕ) (hq : storedParticipant? db cidX uidX = some q)
    (ht : q.completedAt = some t) :
    ∃ q', storedParticipant? (applyOp cid db op) cidX uidX = some q' ∧
      q'.completedAt = some t := by
  cases op with
  | join uid now =>
      obtain ⟨q', h1, h2⟩ := mono_joinChallenge db cid uid now cidX uidX q hq
      exact ⟨q', h1, by rw [h2, ht]⟩
  | leave uid => exact mono_leaveChallenge db cid uid cidX uidX q t hq ht
  | update uid v now ef => exact mono_updateProgress db cid uid v now ef cidX uidX q t hq ht

theorem mono_applyOps (cid : ℕ) (ops : List ChallengeOp) :
    ∀ (db : DB) (cidX uidX : ℕ) (q : Participant) (t : ℕ),
      storedParticipant? db cidX uidX = some q → q.completedAt = some t →
      ∃ q', storedParticipant? (applyOps cid db ops) cidX uidX = some q' ∧
        q'.completedAt = some t := by
  induction ops with
  | nil => intro db cidX uidX q t hq ht; exact ⟨q, hq, ht⟩
  | cons op rest ih =>
      intro db cidX uidX q t hq ht
      obtain ⟨q', h1, h2⟩ := mono_applyOp cid db op cidX uidX q t hq ht
      exact ih (applyOp cid db op) cidX uidX q' t h1 h2

theorem validateCustomRule_between_none (r : BadgeRuleReq)
    (hop : r.operator = "between") (hv2 : r.value2 = none) :
    (validateCustomRule r).isSome := by
  unfold validateCustomRule
  split_ifs with h1 h2 h3 h4
  · simp
  · simp
  · simp
  · simp
  · exact absurd (by simp [hop, hv2]) h4

theorem validateCustomRule_clean (r : BadgeRuleReq)
    (h1 : r.type ≠ "") (h2 : r.field ≠ "") (h3 : r.value.isUndef = false)
    (h4 : r.type ∈ validRuleTypes) (h5 : r.operator ∈ validRuleOperators) :
    validateCustomRule r = none ∨ validateCustomRule r = some .value2Required := by
  have hop : r.operator ≠ "" := by
    intro habs
    rw [habs] at h5
    simp [validRuleOperators] at h5
  unfold validateCustomRule
  rw [if_neg (by simp [h1, h2, h3, hop])]
  rw [if_neg (by simp [h4])]
  rw [if_neg (by simp [h5])]
  split_ifs with h6
  · right; rfl
  · left; rfl

theorem validateCustomRules_mem_isSome (rs : List BadgeRuleReq) (r : BadgeRuleReq)
    (hmem : r ∈ rs) (hsome : (validateCustomRule r).isSome) :
    (validateCustomRules rs).isSome := by
  induction rs with
  | nil => simp at hmem
  | cons a rest ih =>
      unfold validateCustomRules
      cases ha : validateCustomRule a with
      | some e => simp
      | none =>
          simp only []
          rcases List.mem_cons.mp hmem with rfl | hmem2
          · rw [ha] at hsome; simp at hsome
          · exact ih hmem2

theorem validateCustomRules_clean_value2 (rs : List BadgeRuleReq)
    (hclean : ∀ r ∈ rs, validateCustomRule r = none ∨
      validateCustomRule r = some .value2Required)
    (hbad : ∃ r ∈ rs, (validateCustomRule r).isSome) :
    validateCustomRules rs = some .value2Required := by
  induction rs with
  | nil => simp at hbad
  | cons a rest ih =>
      unfold validateCustomRules
      cases ha : validateCustomRule a with
      | some e =>
          rcases hclean a (by simp) with hna | hv2
          · rw [ha] at hna; simp at hna
          · rw [ha] at hv2
            simpa using hv2
      | none =>
          simp only []
          apply ih
          · intro r hr; exact hclean r (by simp [hr])
          · obtain ⟨r, hr, hsome⟩ := hbad
            rcases List.mem_cons.mp hr with rfl | hr2
            · rw [ha] at hsome; simp at hsome
            · exact ⟨r, hr2, hsome⟩

/-- C8 (counterexample): a creation request through the plain
badge-creation path whose only rule is `between` without `value2`
passes the route validation and is stored by `createBadge` — the claim
that every such badge-creation request is rejected is false. -/
theorem C8_counterexample_plain_creation_accepts :
    createBadgeValidationOk badReqBetweenNoV2 = true ∧
    (createBadge dbMain badReqBetweenNoV2 99).2 = none ∧
    (createBadge dbMain badReqBetweenNoV2 99).1.badges.length =
      dbMain.badges.length + 1 := by
  refine ⟨by decide, by decide, by decide⟩

/-- C8 (amended): only the custom-badge endpoint
(`createCustomBadge`) rejects a rule with `operator=between` and no
`value2`: the request fails with a validation error, no badge is
stored, and when every rule is otherwise well-formed the error is
precisely the missing-`value2` one. -/
theorem C8_custom_creation_rejects_between_without_value2
    (db : DB) (data : BadgeCreateReq) (nid : ℕ)
    (hbad : ∃ r ∈ data.rules, r.operator = "between" ∧ r.value2 = none) :
    (createCustomBadge db data nid).2.isSome ∧
    (createCustomBadge db data nid).1 = db ∧
    ((∀ r ∈ data.rules, r.type ≠ "" ∧ r.field ≠ "" ∧ r.value.isUndef = false ∧
        r.type ∈ validRuleTypes ∧ r.operator ∈ validRuleOperators) →
      (createCustomBadge db data nid).2 = some .value2Required) := by
  obtain ⟨r0, hr0, hop, hv2⟩ := hbad
  have hne : data.rules.isEmpty = false := by
    cases hdr : data.rules with
    | nil => rw [hdr] at hr0; simp at hr0
    | cons a rest => simp
  have hsome := validateCustomRule_between_none r0 hop hv2
  have hloop := validateCustomRules_mem_isSome data.rules r0 hr0 hsome
  unfold createCustomBadge
  rw [hne]
  simp only [Bool.false_eq_true, if_false]
  cases hv : validateCustomRules data.rules with
  | none => rw [hv] at hloop; simp at hloop
  | some e =>
      refine ⟨by simp, rfl, ?_⟩
      intro hclean
      have : validateCustomRules data.rules = some .value2Required := by
        apply validateCustomRules_clean_value2
        · intro r hr
          obtain ⟨c1, c2, c3, c4, c5⟩ := hclean r hr
          exact validateCustomRule_clean r c1 c2 c3 c4 c5
        · exact ⟨r0, hr0, hsome⟩
      rw [hv] at this
      simpa using this

/-- C4 (counterexample): with the badge check failing, `updateProgress`
on a completing call propagates the failure to its caller and the
challenge document — progress and `completedAt` — is not persisted,
refuting both halves of the claim. -/
theorem C4_counterexample_badge_failure_not_swallowed :
    (updateProgress dbMain 10 1 100 5 true).2 = some .envFailure ∧
    storedParticipant? (updateProgress dbMain 10 1 100 5 true).1 10 1 =
      some ⟨1, 2, 0, none⟩ := by
  refine ⟨by decide, by decide⟩

/-- C4 (amended): `updateProgress` has no try/catch around the badge
check, so when that check fails on the completion transition the error
propagates to the caller and the challenge document is left unsaved,
while the user-stat increments (`completedChallenges`, `score`),
written before the badge check, do persist. -/
theorem C4_badge_failure_splits_the_write (db : DB) (cid uid : ℕ) (v : ℚ)
    (now : ℕ) (c : ChallengeDoc) (p : Participant) (u : UserDoc)
    (hc : db.findChallenge? cid = some c)
    (hp : c.participants.find? (fun q => q.user = uid) = some p)
    (hcomp : min 100 (max 0 v) = 100 ∧ p.completedAt = none)
    (hu : db.findUser? uid = some u) :
    (updateProgress db cid uid v now true).2 = some .envFailure ∧
    (updateProgress db cid uid v now true).1.challenges = db.challenges ∧
    statsOf? (updateProgress db cid uid v now true).1 uid =
      some { u.stats with completedChallenges := u.stats.completedChallenges + 1,
                          score := u.stats.score + c.rewardPoints } := by
  have hid : ∀ w : UserDoc, w.id = uid → (({ w with
      stats.completedChallenges := w.stats.completedChallenges + 1,
      stats.score := w.stats.score + c.rewardPoints } : UserDoc)).id = uid := by
    intro w hw
    exact hw
  rw [updateProgress_eq_completing_envfail db cid uid v now c p u hc hp hcomp hu]
  refine ⟨rfl, rfl, ?_⟩
  unfold statsOf?
  simp only []
  rw [findUser?_updateUser _ _ _ hid, hu]
  rfl

/-- C4 (witness): the amended statement at the sample store. -/
theorem C4_badge_failure_splits_the_write_witness :
    (updateProgress dbMain 10 1 100 5 true).2 = some .envFailure ∧
    (updateProgress dbMain 10 1 100 5 true).1.challenges = dbMain.challenges ∧
    statsOf? (updateProgress dbMain 10 1 100 5 true).1 1 =
      some { userA.stats with
              completedChallenges := userA.stats.completedChallenges + 1,
              score := userA.stats.score + chalMain.rewardPoints } :=
  C4_badge_failure_splits_the_write dbMain 10 1 100 5 chalMain ⟨1, 2, 0, none⟩ userA
    (by decide) (by decide) (by decide) (by decide)

/-- C2: for a rule with `operator = between`, `evaluateRule` returns
true iff the numeric coercions of the resolved field value, of `value`
(lower bound) and of `value2` (upper bound) all exist (are not NaN) and
the field lies in the closed interval; whenever the resolved field
coerces to NaN the rule evaluates to false. -/
theorem C2_between_rule_evaluation (fv : JsVal) (rule : BadgeRule)
    (hop : rule.operator = "between") :
    (evaluateRule fv rule = true ↔
      ∃ x lo hi : ℚ, toNumber fv = some x ∧ toNumber rule.value = some lo ∧
        toNumber (rule.value2.getD .undefined) = some hi ∧ lo ≤ x ∧ x ≤ hi) ∧
    (toNumber fv = none → evaluateRule fv rule = false) := by
  have he : evaluateRule fv rule =
      (jsNumGe (toNumber fv) (toNumber rule.value) &&
       jsNumLe (toNumber fv) (toNumber (rule.value2.getD .undefined))) := by
    unfold evaluateRule
    rw [hop]
    rfl
  constructor
  · rw [he]
    cases hx : toNumber fv <;> cases hlo : toNumber rule.value <;>
      cases hhi : toNumber (rule.value2.getD .undefined) <;>
      simp [jsNumGe, jsNumLe]
  · intro hnan
    rw [he, hnan]
    simp [jsNumGe]

/-- C2 (witness): a numeric field inside the interval evaluates true;
the interval bounds are used as given. -/
theorem C2_between_rule_evaluation_witness :
    evaluateRule (.num 5) ⟨"user_stat", "stats.score", "between",
      .num 1, some (.num 10)⟩ = true :=
  ((C2_between_rule_evaluation (.num 5) ⟨"user_stat", "stats.score", "between",
      .num 1, some (.num 10)⟩ rfl).1).mpr
    ⟨5, 1, 10, rfl, rfl, rfl, by norm_num, by norm_num⟩

/-- C10: with `maxParticipants` unset — or set to `0`, which the
truthiness check treats the same — `isFull` is false whatever the
participant count, and `join` on such a challenge never fails with the
capacity error. -/
theorem C10_isFull_unset_or_zero (c : ChallengeDoc)
    (h : c.maxParticipants = none ∨ c.maxParticipants = some 0) :
    c.isFull = false ∧
    ∀ (db : DB) (uid now : ℕ), db.findChallenge? c.id = some c →
      (joinChallenge db c.id uid now).2 ≠ some .challengeFull := by
  have hfull : c.isFull = false := by
    rcases h with h | h <;> simp [ChallengeDoc.isFull, h]
  refine ⟨hfull, ?_⟩
  intro db uid now hc
  unfold joinChallenge
  rw [hc]
  simp only [hfull, Bool.false_eq_true, if_false]
  split
  · simp
  · split
    · simp
    · split
      · simp
      · split
        · simp
        · simp

/-- C10 (witness): the sample challenge without a capacity cap. -/
theorem C10_isFull_unset_or_zero_witness :
    chalMain.isFull = false ∧
    (joinChallenge dbMain 10 2 7).2 ≠ some .challengeFull :=
  ⟨(C10_isFull_unset_or_zero chalMain (Or.inl rfl)).1,
   (C10_isFull_unset_or_zero chalMain (Or.inl rfl)).2 dbMain 2 7 (by decide)⟩

/-- C6: evaluated at the sample store, the derived
`completedChallenges` the snapshot builder computes counts the
challenge in which user 1 has *not* completed (another participant
has), so the snapshot value seen by rule evaluation under
`stats.completedChallenges` is 1 although the count of the user's own
completed participations — and the persisted counter — are 0: the
`countDocuments` query lacks `$elemMatch`, matching its two conditions
against different array elements. -/
theorem C6_derived_count_matches_any_participant :
    countCompletedChallengesQuery dbMain 1 = 1 ∧
    countOwnCompletedChallenges dbMain 1 = 0 ∧
    getFieldValue (prepareUserData dbMain userA) "stats.completedChallenges" = .num 1 ∧
    userA.stats.completedChallenges = 0 :=
  ⟨by decide, by decide, by rfl, by decide⟩

/-- C8 (witness): the amended statement at the sample store and the
sample `between`-without-`value2` request. -/
theorem C8_custom_creation_rejects_between_without_value2_witness :
    (createCustomBadge dbMain badReqBetweenNoV2 99).2.isSome ∧
    (createCustomBadge dbMain badReqBetweenNoV2 99).1 = dbMain ∧
    ((∀ r ∈ badReqBetweenNoV2.rules, r.type ≠ "" ∧ r.field ≠ "" ∧
        r.value.isUndef = false ∧
        r.type ∈ validRuleTypes ∧ r.operator ∈ validRuleOperators) →
      (createCustomBadge dbMain badReqBetweenNoV2 99).2 = some .value2Required) :=
  C8_custom_creation_rejects_between_without_value2 dbMain badReqBetweenNoV2 99
    ⟨⟨"user_stat", "stats.score", "between", .num 10, none⟩,
      by simp [badReqBetweenNoV2], rfl, rfl⟩

/-- C3: `checkAndAwardBadges` never awards a badge already in the
user's badge set, and a second invocation with no intervening state
change awards none of the badges the first invocation awarded. -/
theorem C3_checkAndAward_no_double_award (db : DB) (uid : ℕ) (u : UserDoc)
    (hu : db.findUser? uid = some u) :
    (∀ i ∈ (checkAndAwardBadges db uid).2.1, i ∉ u.badges) ∧
    (∀ i ∈ (checkAndAwardBadges (checkAndAwardBadges db uid).1 uid).2.1,
      i ∉ (checkAndAwardBadges db uid).2.1) := by
  obtain ⟨-, hnew, u', hu', hbadges, -, -⟩ := checkAndAward_spec db uid u hu
  refine ⟨hnew, ?_⟩
  obtain ⟨-, hnew2, -⟩ := checkAndAward_spec _ uid u' hu'
  intro i hi hree
  exact hnew2 i hi (by rw [hbadges]; exact List.mem_append_right _ hree)

/-- C3 (witness): at the sample store the first call awards the sample
badge; neither call re-awards anything already owned. -/
theorem C3_checkAndAward_no_double_award_witness :
    (∀ i ∈ (checkAndAwardBadges dbMain 1).2.1, i ∉ userA.badges) ∧
    (∀ i ∈ (checkAndAwardBadges (checkAndAwardBadges dbMain 1).1 1).2.1,
      i ∉ (checkAndAwardBadges dbMain 1).2.1) :=
  C3_checkAndAward_no_double_award dbMain 1 userA (by decide)

/-- C5 (counterexample): after completing challenge 10 and then
updating progress to 50, user 1's participant record keeps its
completion timestamp while its progress is 50 — so "completedAt is set
iff progress equals 100" fails on the code. -/
theorem C5_counterexample_completed_with_progress_below_100 :
    ¬ (∀ q : Participant,
        storedParticipant? (applyOps 10 dbMain
          [.update 1 100 5 false, .update 1 50 6 false]) 10 1 = some q →
        (q.completedAt ≠ none ↔ q.progress = 100)) := by
  intro h
  have hq := h ⟨1, 2, 50, some 5⟩ (by decide)
  have h50 : (⟨1, 2, 50, some 5⟩ : Participant).progress = 100 := hq.mp (by simp)
  norm_num [Participant.progress] at h50

/-- C5 (amended): along any sequence of join/leave/updateProgress
operations, a participant whose progress is 100 always has a completion
timestamp, and a completion timestamp, once set, is never cleared or
lost by later operations; the converse — completedAt set only while
progress is exactly 100 — does not hold, since progress may be lowered
after completion. -/
theorem C5_completion_monotone_and_progress100_completed :
    (∀ (db : DB) (cid : ℕ) (ops : List ChallengeOp), progressCompleteInv db →
        progressCompleteInv (applyOps cid db ops)) ∧
    (∀ (db : DB) (cid : ℕ) (ops : List ChallengeOp) (cidX uidX : ℕ)
        (q : Participant) (t : ℕ),
        storedParticipant? db cidX uidX = some q → q.completedAt = some t →
        ∃ q', storedParticipant? (applyOps cid db ops) cidX uidX = some q' ∧
          q'.completedAt = some t) :=
  ⟨fun db cid ops h => inv_applyOps cid ops db h,
   fun db cid ops => mono_applyOps cid ops db⟩

/-- C5 (witness): the amended statement at the sample store. -/
theorem C5_completion_monotone_and_progress100_completed_witness :
    progressCompleteInv (applyOps 10 dbMain [.update 1 100 5 false]) ∧
    ∃ q', storedParticipant? (applyOps 10 dbMain [.update 1 30 6 false]) 30 2 =
        some q' ∧ q'.completedAt = some 5 :=
  ⟨C5_completion_monotone_and_progress100_completed.1 dbMain 10
      [.update 1 100 5 false] (by unfold progressCompleteInv; decide),
   C5_completion_monotone_and_progress100_completed.2 dbMain 10
      [.update 1 30 6 false] 30 2 ⟨2, 3, 100, some 5⟩ 5 (by decide) (by decide)⟩

theorem startBlocked_true_iff (c : ChallengeDoc) (now : ℕ) :
    startBlocked c now = true ↔ ∃ s, c.startDate = some s ∧ now < s := by
  unfold startBlocked
  cases c.startDate <;> simp

theorem startBlocked_false_iff (c : ChallengeDoc) (now : ℕ) :
    startBlocked c now = false ↔ ∀ s, c.startDate = some s → s ≤ now := by
  unfold startBlocked
  cases c.startDate <;> simp [Nat.not_lt]

theorem endBlocked_true_iff (c : ChallengeDoc) (now : ℕ) :
    endBlocked c now = true ↔ ∃ e, c.endDate = some e ∧ now > e := by
  unfold endBlocked
  cases c.endDate <;> simp

theorem endBlocked_false_iff (c : ChallengeDoc) (now : ℕ) :
    endBlocked c now = false ↔ ∀ e, c.endDate = some e → now ≤ e := by
  unfold endBlocked
  cases c.endDate <;> simp [Nat.not_lt]

/-- C7: with the challenge found, `join` fails with exactly one error
determined by the first failing precondition in source order — active,
not already participating, capacity, start date, end date — and on
success appends a fresh participant record with progress 0 and
`joinedAt = now` and increments the user's `totalChallenges`; a
challenge with `maxParticipants = 1` and one participant rejects a
second user with the capacity error, leaving the list at length 1. -/
theorem C7_join_precondition_order_and_effect (db : DB) (cid uid now : ℕ)
    (c : ChallengeDoc) (hc : db.findChallenge? cid = some c) :
    ((joinChallenge db cid uid now).2 = some .challengeInactive ↔
      c.isActive = false) ∧
    ((joinChallenge db cid uid now).2 = some .alreadyParticipating ↔
      (c.isActive = true ∧ c.hasParticipant uid = true)) ∧
    ((joinChallenge db cid uid now).2 = some .challengeFull ↔
      (c.isActive = true ∧ c.hasParticipant uid = false ∧ c.isFull = true)) ∧
    ((joinChallenge db cid uid now).2 = some .challengeNotStarted ↔
      (c.isActive = true ∧ c.hasParticipant uid = false ∧ c.isFull = false ∧
        ∃ s, c.startDate = some s ∧ now < s)) ∧
    ((joinChallenge db cid uid now).2 = some .challengeEnded ↔
      (c.isActive = true ∧ c.hasParticipant uid = false ∧ c.isFull = false ∧
        (∀ s, c.startDate = some s → s ≤ now) ∧ ∃ e, c.endDate = some e ∧ now > e)) ∧
    ((joinChallenge db cid uid now).2 = none ↔
      (c.isActive = true ∧ c.hasParticipant uid = false ∧ c.isFull = false ∧
        (∀ s, c.startDate = some s → s ≤ now) ∧ (∀ e, c.endDate = some e → now ≤ e))) ∧
    ((joinChallenge db cid uid now).2 = none →
      (joinChallenge db cid uid now).1.findChallenge? cid =
        some { c with participants := c.participants ++ [⟨uid, now, 0, none⟩] } ∧
      (statsOf? (joinChallenge db cid uid now).1 uid).map (fun s => s.totalChallenges) =
        (statsOf? db uid).map (fun s => s.totalChallenges + 1)) ∧
    (c.maxParticipants = some 1 → c.participants.length = 1 → c.isActive = true →
      c.hasParticipant uid = false →
      (joinChallenge db cid uid now).2 = some .challengeFull ∧
      (joinChallenge db cid uid now).1.findChallenge? cid = some c) := by
  have hcid : c.id = cid := by simpa using List.find?_some hc
  rw [← startBlocked_true_iff, ← startBlocked_false_iff,
    ← endBlocked_true_iff, ← endBlocked_false_iff]
  unfold joinChallenge
  rw [hc]
  simp only []
  split_ifs with h1 h2 h3 h4 h5
  · have ha : c.isActive = false := by simpa using h1
    simp [ha]
  · have ha : c.isActive = true := by simpa using h1
    simp [ha, h2]
  · have ha : c.isActive = true := by simpa using h1
    have hb : c.hasParticipant uid = false := by simpa using h2
    refine ⟨by simp [ha], by simp [hb], by simp [ha, hb, h3], by simp [h3],
      by simp [h3], by simp [h3], by simp, ?_⟩
    intro _ _ _ _
    exact ⟨rfl, hc⟩
  · have ha : c.isActive = true := by simpa using h1
    have hb : c.hasParticipant uid = false := by simpa using h2
    have h3f : c.isFull = false := by simpa using h3
    refine ⟨by simp [ha], by simp [hb], by simp [h3f], by simp [ha, hb, h3f, h4],
      by simp [h4], by simp [h4], by simp, ?_⟩
    intro hmax hlen _ _
    have : c.isFull = true := by
      unfold ChallengeDoc.isFull
      rw [hmax, hlen]
      simp
    rw [this] at h3f
    cases h3f
  · have ha : c.isActive = true := by simpa using h1
    have hb : c.hasParticipant uid = false := by simpa using h2
    have h3f : c.isFull = false := by simpa using h3
    have h4f : startBlocked c now = false := by simpa using h4
    refine ⟨by simp [ha], by simp [hb], by simp [h3f], by simp [h4f],
      by simp [ha, hb, h3f, h4f, h5], by simp [h5], by simp, ?_⟩
    intro hmax hlen _ _
    have : c.isFull = true := by
      unfold ChallengeDoc.isFull
      rw [hmax, hlen]
      simp
    rw [this] at h3f
    cases h3f
  · have ha : c.isActive = true := by simpa using h1
    have hb : c.hasParticipant uid = false := by simpa using h2
    have h3f : c.isFull = false := by simpa using h3
    have h4f : startBlocked c now = false := by simpa using h4
    have h5f : endBlocked c now = false := by simpa using h5
    refine ⟨by simp [ha], by simp [hb], by simp [h3f], by simp [h4f],
      by simp [h5f], by simp [ha, hb, h3f, h4f, h5f], ?_, ?_⟩
    · intro _
      constructor
      · rw [findChallenge?_congr (DB.challenges_updateUser _ _ _)]
        exact findChallenge?_saveChallenge db _ cid
          (show ({ c with participants :=
            c.participants ++ [⟨uid, now, 0, none⟩] } : ChallengeDoc).id = cid from hcid)
          (by rw [hc]; simp)
      · unfold statsOf?
        simp only []
        have hid : ∀ w : UserDoc, w.id = uid → (({ w with
            stats.totalChallenges := w.stats.totalChallenges + 1 } : UserDoc)).id = uid :=
          fun w hw => hw
        rw [findUser?_updateUser _ _ _ hid]
        rw [findUser?_congr (DB.users_saveChallenge _ _)]
        cases db.findUser? uid <;> simp
    · intro hmax hlen _ _
      have : c.isFull = true := by
        unfold ChallengeDoc.isFull
        rw [hmax, hlen]
        simp
      rw [this] at h3f
      cases h3f

/-- C7 (witness): the capacity scenario on the sample store — challenge
20 has `maxParticipants = 1` and one participant, so user 2's join is
rejected as full and the record stays intact. -/
theorem C7_join_precondition_order_and_effect_witness :
    (joinChallenge dbMain 20 2 7).2 = some .challengeFull ∧
    (joinChallenge dbMain 20 2 7).1.findChallenge? 20 = some chalCap :=
  (C7_join_precondition_order_and_effect dbMain 20 2 7 chalCap (by decide)).2.2.2.2.2.2.2
    (by decide) (by decide) (by decide) (by decide)

theorem DB.invitations_updateUser (db : DB) (uid : ℕ) (f : UserDoc → UserDoc) :
    (db.updateUser uid f).invitations = db.invitations := rfl

theorem DB.invitations_saveChallenge (db : DB) (c : ChallengeDoc) :
    (db.saveChallenge c).invitations = db.invitations := rfl

theorem pendingCount_congr {db1 db2 : DB} (h : db1.invitations = db2.invitations)
    (cid r : ℕ) : pendingCount db1 cid r = pendingCount db2 cid r := by
  unfold pendingCount
  rw [h]

theorem pendingUnique_congr {db1 db2 : DB} (h : db1.invitations = db2.invitations)
    (hu : pendingUnique db2) : pendingUnique db1 := by
  intro cid r
  rw [pendingCount_congr h]
  exact hu cid r

theorem pendingUnique_filter (db0 db : DB) (g : InvitationDoc → Bool)
    (hinv : db0.invitations = db.invitations.filter g) (h : pendingUnique db) :
    pendingUnique db0 := by
  intro cid r
  unfold pendingCount
  rw [hinv]
  calc ((db.invitations.filter g).filter _).length
      ≤ (db.invitations.filter _).length :=
        ((List.filter_sublist db.invitations).filter _).length_le
    _ ≤ 1 := h cid r

theorem any_false_pendingCount_zero (db : DB) (cid r : ℕ)
    (h : db.invitations.any (fun i =>
      i.challenge = cid && i.recipient = r && i.status = "pending") = false) :
    pendingCount db cid r = 0 := by
  unfold pendingCount
  rw [List.length_eq_zero, List.filter_eq_nil_iff]
  simp only [List.any_eq_false] at h
  intro i hi
  simpa using h i hi

theorem pendingCount_snoc (db : DB) (inv : InvitationDoc) (cid r : ℕ) :
    pendingCount { db with invitations := db.invitations ++ [inv] } cid r =
      pendingCount db cid r +
        (if (inv.challenge = cid && inv.recipient = r && inv.status = "pending") = true
         then 1 else 0) := by
  unfold pendingCount
  simp only []
  rw [List.filter_append, List.length_append]
  congr 1
  by_cases hp : (inv.challenge = cid && inv.recipient = r && inv.status = "pending") = true <;>
    simp [hp]

theorem inviteLoop_preserves (c : ChallengeDoc) (inviter : UserDoc) :
    ∀ (fs : List UserDoc) (db : DB), pendingUnique db →
      pendingUnique (inviteLoop c inviter fs db).1 := by
  intro fs
  induction fs with
  | nil => intro db h; exact h
  | cons f rest ih =>
      intro db h
      unfold inviteLoop
      split
      · exact h
      split
      · exact h
      split
      · exact h
      next hpend _ =>
        apply ih
        intro cid r
        rw [pendingCount_snoc]
        simp only []
        split_ifs with hcond
        · simp only [Bool.and_eq_true, decide_eq_true_eq] at hcond
          obtain ⟨⟨hm1, hm2⟩, -⟩ := hcond
          subst hm1
          subst hm2
          have h0 : pendingCount db c.id f.id = 0 := by
            apply any_false_pendingCount_zero
            simpa using hpend
          omega
        · have := h cid r
          omega

theorem inviteLoop_blocked (c : ChallengeDoc) (inviter : UserDoc) (r : ℕ) :
    ∀ (fs : List UserDoc) (db : DB), (∃ f ∈ fs, f.id = r) →
      1 ≤ pendingCount db c.id r →
      (inviteLoop c inviter fs db).2.isSome ∧
      pendingCount (inviteLoop c inviter fs db).1 c.id r = pendingCount db c.id r := by
  intro fs
  induction fs with
  | nil => intro db hex _; simp at hex
  | cons f rest ih =>
      intro db hex hcnt
      unfold inviteLoop
      split
      · exact ⟨by simp, rfl⟩
      split
      · exact ⟨by simp, rfl⟩
      split
      · exact ⟨by simp, rfl⟩
      next hpend _ =>
        by_cases hf : f.id = r
        · exfalso
          have h0 : pendingCount db c.id f.id = 0 := by
            apply any_false_pendingCount_zero
            simpa using hpend
          rw [hf] at h0
          omega
        · have hex2 : ∃ f2 ∈ rest, f2.id = r := by
            obtain ⟨f2, hf2, hid2⟩ := hex
            rcases List.mem_cons.mp hf2 with rfl | hf2r
            · exact absurd hid2 hf
            · exact ⟨f2, hf2r, hid2⟩
          have hsame : pendingCount { db with invitations := db.invitations ++
              [⟨db.freshInvitationId, c.id, inviter.id, f.id, "pending"⟩] } c.id r =
              pendingCount db c.id r := by
            rw [pendingCount_snoc]
            simp only []
            split_ifs with hcond
            · simp only [Bool.and_eq_true, decide_eq_true_eq] at hcond
              exact absurd hcond.1.2 hf
            · omega
          obtain ⟨hs, hcq⟩ := ih _ hex2 (by rw [hsame]; exact hcnt)
          exact ⟨hs, by rw [hcq, hsame]⟩

/-- C9: every operation touching invitations keeps at most one pending
invitation per (challenge, recipient) pair; an invite batch naming a
recipient who already has a pending invitation for that challenge
always fails, creates no new invitation for that recipient, and — when
that recipient is the whole batch and the earlier checks pass — fails
precisely with the pending-invitation conflict. -/
theorem C9_pending_invitation_uniqueness :
    (∀ (db : DB) (cid uid : ℕ) (fids : List ℕ), pendingUnique db →
        pendingUnique (inviteFriends db cid uid fids).1) ∧
    (∀ (db : DB) (iid uid now : ℕ), pendingUnique db →
        pendingUnique (acceptInvitation db iid uid now).1) ∧
    (∀ (db : DB) (iid uid : ℕ), pendingUnique db →
        pendingUnique (rejectInvitation db iid uid).1) ∧
    (∀ (db : DB) (cid uid r : ℕ) (fids : List ℕ) (f : UserDoc),
        f ∈ db.users → f.id = r → r ∈ fids → 1 ≤ pendingCount db cid r →
        (inviteFriends db cid uid fids).2.isSome ∧
        pendingCount (inviteFriends db cid uid fids).1 cid r =
          pendingCount db cid r) ∧
    (∀ (db : DB) (cid uid r : ℕ) (c : ChallengeDoc) (inviter fr : UserDoc),
        db.findChallenge? cid = some c → db.findUser? uid = some inviter →
        c.hasParticipant uid = true →
        db.users.filter (fun w => ([r] : List ℕ).contains w.id) = [fr] →
        fr.id ∈ inviter.friends →
        db.invitations.any (fun i => i.challenge = c.id && i.recipient = fr.id &&
          i.status = "pending") = true →
        (inviteFriends db cid uid [r]).2 = some .invitationPending) := by
  refine ⟨?_, ?_, ?_, ?_, ?_⟩
  · intro db cid uid fids h
    unfold inviteFriends
    cases hc : db.findChallenge? cid with
    | none => exact h
    | some c =>
        simp only []
        cases hu : db.findUser? uid with
        | none => exact h
        | some inviter =>
            simp only []
            split
            · exact h
            split
            · exact h
            exact inviteLoop_preserves c inviter _ db h
  · intro db iid uid now h
    unfold acceptInvitation
    cases hi : db.invitations.find? (fun i =>
        i.id = iid && i.recipient = uid && i.status = "pending") with
    | none => exact h
    | some inv =>
        simp only []
        cases hch : db.findChallenge? inv.challenge with
        | none => exact h
        | some c =>
            simp only []
            split
            · exact pendingUnique_filter _ db _ rfl h
            split
            · exact h
            split
            · exact h
            apply pendingUnique_congr (DB.invitations_updateUser _ _ _)
            apply pendingUnique_filter _ (db.saveChallenge _) _ rfl
            exact pendingUnique_congr (DB.invitations_saveChallenge _ _) h
  · intro db iid uid h
    unfold rejectInvitation
    cases hi : db.invitations.find? (fun i =>
        i.id = iid && i.recipient = uid && i.status = "pending") with
    | none => exact h
    | some inv =>
        simp only []
        exact pendingUnique_filter _ db _ rfl h
  · intro db cid uid r fids f hf hfr hrmem hcnt
    unfold inviteFriends
    cases hc : db.findChallenge? cid with
    | none => exact ⟨by simp, rfl⟩
    | some c =>
        simp only []
        cases hu : db.findUser? uid with
        | none => exact ⟨by simp, rfl⟩
        | some inviter =>
            simp only []
            split
            · exact ⟨by simp, rfl⟩
            split
            · exact ⟨by simp, rfl⟩
            have hcid : c.id = cid := by simpa using List.find?_some hc
            have hex : ∃ f2 ∈ db.users.filter (fun u => fids.contains u.id), f2.id = r := by
              refine ⟨f, List.mem_filter.mpr ⟨hf, ?_⟩, hfr⟩
              rw [hfr]
              simpa using hrmem
            rw [← hcid] at hcnt ⊢
            exact inviteLoop_blocked c inviter r _ db hex hcnt
  · intro db cid uid r c inviter fr hc hu hpart hfilter hfriend hpend
    unfold inviteFriends
    rw [hc]
    simp only []
    rw [hu]
    simp only [hpart, Bool.not_true, Bool.false_eq_true, if_false]
    rw [hfilter]
    rw [if_neg (by simp)]
    unfold inviteLoop
    have hcont : inviter.friends.contains fr.id = true := by simpa using hfriend
    rw [if_neg (by simpa using hfriend)]
    rw [if_pos hpend]

/-- C9 (witness): the sample store has a pending invitation from
user 1 to user 2 for challenge 10; re-inviting user 2 fails with the
conflict error and the pending count stays 1; all preservation parts
instantiated at the sample store. -/
theorem C9_pending_invitation_uniqueness_witness :
    pendingUnique (inviteFriends dbMain 10 1 [2]).1 ∧
    pendingUnique (acceptInvitation dbMain 100 2 7).1 ∧
    pendingUnique (rejectInvitation dbMain 100 2).1 ∧
    ((inviteFriends dbMain 10 1 [2]).2.isSome ∧
      pendingCount (inviteFriends dbMain 10 1 [2]).1 10 2 = pendingCount dbMain 10 2) ∧
    (inviteFriends dbMain 10 1 [2]).2 = some .invitationPending := by
  have hone : pendingUnique dbMain := by
    intro cid r
    unfold pendingCount
    calc (dbMain.invitations.filter _).length
        ≤ dbMain.invitations.length := (List.filter_sublist _).length_le
      _ ≤ 1 := by decide
  refine ⟨C9_pending_invitation_uniqueness.1 dbMain 10 1 [2] hone,
    (C9_pending_invitation_uniqueness.2.1) dbMain 100 2 7 hone,
    (C9_pending_invitation_uniqueness.2.2.1) dbMain 100 2 hone,
    (C9_pending_invitation_uniqueness.2.2.2.1) dbMain 10 1 2 [2] userB
      (by decide) (by decide) (by decide) (by decide),
    (C9_pending_invitation_uniqueness.2.2.2.2) dbMain 10 1 2 chalMain userA userB
      (by decide) (by decide) (by decide) (by decide) (by decide) (by decide)⟩

/-- C1: `updateProgress` stores the clamped value `clamp(v, 0, 100)`;
`completedAt` is set exactly on the first call whose clamped value is
100 while `completedAt` is unset, and on that one transition
`completedChallenges` is incremented once, the challenge's reward
points are added to the score (any further score change being exactly
the triggered badge check's awarding), while a second
`updateProgress(100)` neither sets `completedAt` again nor changes the
user's counters. -/
theorem C1_updateProgress_clamp_and_one_shot (db : DB) (cid uid : ℕ)
    (v v2 : ℚ) (now now2 : ℕ) (ef2 : Bool) (c : ChallengeDoc)
    (p : Participant) (u : UserDoc)
    (hc : db.findChallenge? cid = some c)
    (hp : c.participants.find? (fun q => q.user = uid) = some p)
    (hu : db.findUser? uid = some u) :
    (updateProgress db cid uid v now false).2 = none ∧
    storedParticipant? (updateProgress db cid uid v now false).1 cid uid =
      some (updatedParticipant p v now) ∧
    (¬(min 100 (max 0 v) = 100 ∧ p.completedAt = none) →
      statsOf? (updateProgress db cid uid v now false).1 uid = statsOf? db uid) ∧
    (min 100 (max 0 v) = 100 ∧ p.completedAt = none →
      (statsOf? (updateProgress db cid uid v now false).1 uid).map
          (fun s => s.completedChallenges) = some (u.stats.completedChallenges + 1) ∧
      statsOf? (updateProgress db cid uid v now false).1 uid =
        statsOf? (checkAndAwardBadges (db.updateUser uid (fun w =>
          { w with stats.completedChallenges := w.stats.completedChallenges + 1,
                   stats.score := w.stats.score + c.rewardPoints })) uid).1 uid ∧
      statsOf? (db.updateUser uid (fun w =>
          { w with stats.completedChallenges := w.stats.completedChallenges + 1,
                   stats.score := w.stats.score + c.rewardPoints })) uid =
        some { u.stats with completedChallenges := u.stats.completedChallenges + 1,
                            score := u.stats.score + c.rewardPoints } ∧
      (updateProgress (updateProgress db cid uid v now false).1 cid uid v2 now2 ef2).2 =
        none ∧
      (storedParticipant?
          (updateProgress (updateProgress db cid uid v now false).1 cid uid v2 now2 ef2).1
          cid uid).map (fun q => q.completedAt) = some (some now) ∧
      statsOf?
          (updateProgress (updateProgress db cid uid v now false).1 cid uid v2 now2 ef2).1
          uid =
        statsOf? (updateProgress db cid uid v now false).1 uid) := by
  have hcid : c.id = cid := by simpa using List.find?_some hc
  have hpuid : p.user = uid := by simpa using List.find?_some hp
  have hid : ∀ w : UserDoc, w.id = uid → (({ w with
      stats.completedChallenges := w.stats.completedChallenges + 1,
      stats.score := w.stats.score + c.rewardPoints } : UserDoc)).id = uid :=
    fun w hw => hw
  by_cases hcomp : min 100 (max 0 v) = 100 ∧ p.completedAt = none
  · have hu1 : (db.updateUser uid (fun w =>
        { w with stats.completedChallenges := w.stats.completedChallenges + 1,
                 stats.score := w.stats.score + c.rewardPoints })).findUser? uid =
        some { u with stats.completedChallenges := u.stats.completedChallenges + 1,
                      stats.score := u.stats.score + c.rewardPoints } := by
      rw [findUser?_updateUser _ _ _ hid, hu]
      rfl
    obtain ⟨herr, hnoold, u', hu', hbadges, hcc, huid'⟩ :=
      checkAndAward_spec _ uid _ hu1
    rw [updateProgress_eq_completing db cid uid v now c p u hc hp hcomp hu]
    have hchal : ((checkAndAwardBadges (db.updateUser uid (fun w =>
        { w with stats.completedChallenges := w.stats.completedChallenges + 1,
                 stats.score := w.stats.score + c.rewardPoints })) uid).1.findChallenge?
        cid) = some c := by
      rw [findChallenge?_congr (checkAndAward_challenges _ _)]
      rw [findChallenge?_congr (DB.challenges_updateUser _ _ _)]
      exact hc
    have hstored := stored_after_save_modify
      (checkAndAwardBadges (db.updateUser uid (fun w =>
        { w with stats.completedChallenges := w.stats.completedChallenges + 1,
                 stats.score := w.stats.score + c.rewardPoints })) uid).1
      c cid uid p
      (fun q => { q with progress := min 100 (max 0 v), completedAt := some now })
      hcid (by rw [hchal]; simp) hp hpuid
    have hc2 := findChallenge?_saveChallenge
      (checkAndAwardBadges (db.updateUser uid (fun w =>
        { w with stats.completedChallenges := w.stats.completedChallenges + 1,
                 stats.score := w.stats.score + c.rewardPoints })) uid).1
      { c with participants := (modifyFirst (fun q => q.user = uid)
        (fun q => { q with progress := min 100 (max 0 v), completedAt := some now })
        c.participants) }
      cid hcid (by rw [hchal]; simp)
    have hp2 : ({ c with participants := (modifyFirst (fun q => q.user = uid)
        (fun q => { q with progress := min 100 (max 0 v), completedAt := some now })
        c.participants) } : ChallengeDoc).participants.find? (fun q => q.user = uid) =
        some { p with progress := min 100 (max 0 v), completedAt := some now } := by
      exact stored_eq_of_findChallenge hstored hc2
    have hstats1 : statsOf? ((checkAndAwardBadges (db.updateUser uid (fun w =>
        { w with stats.completedChallenges := w.stats.completedChallenges + 1,
                 stats.score := w.stats.score + c.rewardPoints })) uid).1.saveChallenge
        { c with participants := (modifyFirst (fun q => q.user = uid)
          (fun q => { q with progress := min 100 (max 0 v), completedAt := some now })
          c.participants) }) uid = some u'.stats := by
      unfold statsOf?
      rw [findUser?_congr (DB.users_saveChallenge _ _), hu']
      rfl
    refine ⟨rfl, ?_, fun hn => absurd hcomp hn, fun _ => ⟨?_, ?_, ?_, ?_, ?_, ?_⟩⟩
    · simp only [updatedParticipant]
      rw [if_pos hcomp]
      exact hstored
    · rw [show statsOf? _ uid = some u'.stats from hstats1]
      show some u'.stats.completedChallenges = some (u.stats.completedChallenges + 1)
      rw [hcc]
    · exact statsOf?_congr (DB.users_saveChallenge _ _) uid
    · unfold statsOf?
      rw [hu1]
      rfl
    · rw [updateProgress_eq_noncompleting _ cid uid v2 now2 ef2 _ _ hc2 hp2
        (by rintro ⟨-, habs⟩; simp at habs)]
    · rw [updateProgress_eq_noncompleting _ cid uid v2 now2 ef2 _ _ hc2 hp2
        (by rintro ⟨-, habs⟩; simp at habs)]
      have h2 := stored_after_save_modify _ _ cid uid _
        (fun q => { q with progress := min 100 (max 0 v2) })
        (show ({ c with participants := (modifyFirst (fun q => q.user = uid)
          (fun q => { q with progress := min 100 (max 0 v), completedAt := some now })
          c.participants) } : ChallengeDoc).id = cid from hcid)
        (by rw [hc2]; simp) hp2 hpuid
      rw [h2]
      rfl
    · rw [updateProgress_eq_noncompleting _ cid uid v2 now2 ef2 _ _ hc2 hp2
        (by rintro ⟨-, habs⟩; simp at habs)]
      exact statsOf?_congr (DB.users_saveChallenge _ _) uid
  · rw [updateProgress_eq_noncompleting db cid uid v now false c p hc hp hcomp]
    refine ⟨rfl, ?_, fun _ => ?_, fun hcomp2 => absurd hcomp2 hcomp⟩
    · simp only [updatedParticipant]
      rw [if_neg hcomp]
      exact stored_after_save_modify db c cid uid p
        (fun q => { q with progress := min 100 (max 0 v) })
        hcid (by rw [hc]; simp) hp hpuid
    · exact statsOf?_congr (DB.users_saveChallenge _ _) uid

/-- C1 (witness): on the sample store, completing challenge 10 stores
progress 100 with `completedAt` set, and a second `updateProgress(100)`
succeeds without touching `completedAt` or the user's counters. -/
theorem C1_updateProgress_clamp_and_one_shot_witness :
    (updateProgress dbMain 10 1 100 5 false).2 = none ∧
    storedParticipant? (updateProgress dbMain 10 1 100 5 false).1 10 1 =
      some ⟨1, 2, 100, some 5⟩ ∧
    (updateProgress (updateProgress dbMain 10 1 100 5 false).1 10 1 100 6 false).2 =
      none ∧
    (storedParticipant?
        (updateProgress (updateProgress dbMain 10 1 100 5 false).1 10 1 100 6 false).1
        10 1).map (fun q => q.completedAt) = some (some 5) ∧
    statsOf?
        (updateProgress (updateProgress dbMain 10 1 100 5 false).1 10 1 100 6 false).1
        1 =
      statsOf? (updateProgress dbMain 10 1 100 5 false).1 1 := by
  have H := C1_updateProgress_clamp_and_one_shot dbMain 10 1 100 100 5 6 false
    chalMain ⟨1, 2, 0, none⟩ userA (by decide) (by decide) (by decide)
  have hcm : min 100 (max 0 (100 : ℚ)) = 100 ∧
      (⟨1, 2, 0, none⟩ : Participant).completedAt = none := by decide
  exact ⟨H.1, H.2.1, (H.2.2.2 hcm).2.2.2.1, (H.2.2.2 hcm).2.2.2.2.1,
    (H.2.2.2 hcm).2.2.2.2.2⟩
